import Mathlib

/-!
# Verification of the AppLift rep-segmentation and fatigue-analysis pipeline

Shallow embedding, over `ℚ`, of the numerical core of the repository:

* `scripts/performance_visualizer.py` : `compute_ldlj`, `compute_fatigue_indicators`
  (with its nested `get_trend` / `get_consistency`),
* `scripts/resegment_reps_fixed.py` : `find_valleys`, `resegment_single_source`,
* `main_csv.py` : the concentric/eccentric phase split inside `extract_features_per_rep`.

Modelling conventions:

* Python floats are modelled as exact rationals (`ℚ`); `np.std`, `math.sqrt`-like
  primitives that produce irrational values are passed in as explicit function
  parameters (`sqrtQ`, `msqrt`) so that every theorem is quantified over the
  numeric square-root primitive; counterexamples instantiate them with the
  (rounded) value the float program computes, and are robust to the rounding.
  The one place where the exact square root matters (`get_consistency`) is
  modelled over `ℝ` with `Real.sqrt`.
* `savgol_filter` (a fixed linear smoother) is passed in as a function parameter
  `sg`; all universal theorems hold for every choice of `sg`, and all concrete
  inputs used in counterexamples have at most 11 samples, where
  `resegment_single_source` skips the smoother entirely.
* numpy array indexing is modelled with `List.getD _ _ 0`; all accesses on the
  executed paths are in range.
* Paths on which the Python code raises an uncaught exception (empty input to
  `np.max`, `find_peaks` with `distance < 1`) produce no output dictionary at
  all; the embedding is total, and theorems about outputs add the hypotheses
  needed to stay on non-crashing paths wherever the distinction could matter.
-/

namespace AppLift

/-- Array indexing with default 0 (in-range on all executed paths). -/
def getQ (l : List ℚ) (i : ℕ) : ℚ := l.getD i 0

/-- Sum of a list of rationals (`np.sum`). -/
def sumL (l : List ℚ) : ℚ := l.foldr (· + ·) 0

/-- Arithmetic mean (`np.mean`); numpy yields NaN on `[]`, modelled as 0 (division by zero). -/
def meanL (l : List ℚ) : ℚ := sumL l / l.length

/-- Population variance (`np.var`, i.e. `np.std` squared). -/
def varL (l : List ℚ) : ℚ := meanL (l.map (fun x => (x - meanL l) ^ 2))

/-- Maximum of a list (`np.max`); `np.max([])` raises in Python, modelled as 0. -/
def maxL : List ℚ → ℚ
  | [] => 0
  | x :: xs => xs.foldl max x

/-- Minimum of a list (`np.min`); `np.min([])` raises in Python, modelled as 0. -/
def minL : List ℚ → ℚ
  | [] => 0
  | x :: xs => xs.foldl min x

/-- First differences (`np.diff`). -/
def diffL (l : List ℚ) : List ℚ := (l.zip l.tail).map fun p => p.2 - p.1

/-- Scan for `np.argmax`: `i` is the index of the head of `xs` in the original
list, `b`/`v` the best index and value so far; a strictly larger value wins. -/
def argmaxGo : List ℚ → ℕ → ℕ → ℚ → ℕ
  | [], _, b, _ => b
  | x :: xs, i, b, v => if v < x then argmaxGo xs (i + 1) i x else argmaxGo xs (i + 1) b v

/-- Index of the first maximal element (`np.argmax`); 0 on `[]`. -/
def argmaxL (l : List ℚ) : ℕ := argmaxGo l 0 0 (getQ l 0)

/-- Scan for `np.argmin`, dual to `argmaxGo`. -/
def argminGo : List ℚ → ℕ → ℕ → ℚ → ℕ
  | [], _, b, _ => b
  | x :: xs, i, b, v => if x < v then argminGo xs (i + 1) i x else argminGo xs (i + 1) b v

/-- Index of the first minimal element (`np.argmin`); 0 on `[]`. -/
def argminL (l : List ℚ) : ℕ := argminGo l 0 0 (getQ l 0)

/-- Stable insertion into an ascending list of rationals. -/
def insSorted (x : ℚ) : List ℚ → List ℚ
  | [] => [x]
  | y :: ys => if x ≤ y then x :: y :: ys else y :: insSorted x ys

/-- Ascending sort (insertion sort; used for `np.median`). -/
def sortQ (l : List ℚ) : List ℚ := l.foldr insSorted []

/-- Median as computed by `np.median` (average of the two middle elements for even length). -/
def medianL (l : List ℚ) : ℚ :=
  let s := sortQ l
  if l.length % 2 = 1 then getQ s (l.length / 2)
  else (getQ s (l.length / 2 - 1) + getQ s (l.length / 2)) / 2

/-- Truncation toward zero, as Python `int()` applied to a float. -/
def truncQ (q : ℚ) : ℤ :=
  if 0 ≤ q then (q.num.toNat / q.den : ℕ) else -(((-q).num.toNat / (-q).den : ℕ) : ℤ)

/-- Pointwise negation of a signal (`-signal`). -/
def negL (x : List ℚ) : List ℚ := x.map (fun v => -v)

/-- `np.sign` of one value. -/
def signQ (q : ℚ) : ℚ := if q < 0 then -1 else if 0 < q then 1 else 0

/-! ## `scipy.signal.find_peaks`

Faithful model of the scipy implementation:
`_local_maxima_1d` (plateau-aware scan recording run midpoints), the optional
distance filter `_select_by_peak_distance` (peaks processed by decreasing
height, ties by decreasing index, suppressing kept neighbours closer than
`distance`), then the prominence filter built on `_peak_prominences`
(walk away from the peak while samples do not exceed the peak, take the
minimum on each side, prominence is peak height minus the larger of the two
side minima). `find_peaks` applies: local maxima, distance, prominence. -/

/-- Scipy plateau scan: first index `ia ≥` the start with `ia = imax` or `x[ia] ≠ xi`
(fuel-bounded while loop). -/
def plateauEnd (x : List ℚ) (imax : ℕ) (xi : ℚ) : ℕ → ℕ → ℕ
  | 0, ia => ia
  | fuel + 1, ia => if ia < imax ∧ getQ x ia = xi then plateauEnd x imax xi fuel (ia + 1) else ia

/-- Scipy `_local_maxima_1d` main loop: for rising edges `x[i-1] < x[i]`, scan the
plateau of equal values; if it ends with a strict drop before index `imax`,
record the midpoint `(left_edge + right_edge) / 2` and resume after the plateau. -/
def lmScan (x : List ℚ) (imax : ℕ) : ℕ → ℕ → List ℕ
  | 0, _ => []
  | fuel + 1, i =>
    if i < imax then
      if getQ x (i - 1) < getQ x i then
        let ia := plateauEnd x imax (getQ x i) x.length (i + 1)
        if getQ x ia < getQ x i then
          ((i + (ia - 1)) / 2) :: lmScan x imax fuel (ia + 1)
        else lmScan x imax fuel (i + 1)
      else lmScan x imax fuel (i + 1)
    else []

/-- Local maxima of a 1-d signal, scipy `_local_maxima_1d` (`i` runs over `[1, n-1)`). -/
def localMaxima (x : List ℚ) : List ℕ := lmScan x (x.length - 1) x.length 1

/-- Left part of scipy `_peak_prominences`: walk left from the peak while
`x[i] ≤ x[peak]`, returning the minimum value seen. -/
def leftMinFrom (x : List ℚ) (xp : ℚ) : ℕ → ℚ → ℚ
  | 0, acc => if getQ x 0 ≤ xp then min acc (getQ x 0) else acc
  | i + 1, acc => if getQ x (i + 1) ≤ xp then leftMinFrom x xp i (min acc (getQ x (i + 1))) else acc

/-- Right part of scipy `_peak_prominences` (fuel-bounded walk right). -/
def rightMinFrom (x : List ℚ) (xp : ℚ) : ℕ → ℕ → ℚ → ℚ
  | 0, _, acc => acc
  | fuel + 1, i, acc =>
    if i < x.length then
      if getQ x i ≤ xp then rightMinFrom x xp fuel (i + 1) (min acc (getQ x i)) else acc
    else acc

/-- Prominence of the peak at index `p` (scipy `_peak_prominences`, `wlen` unset). -/
def prominenceAt (x : List ℚ) (p : ℕ) : ℚ :=
  getQ x p - max (leftMinFrom x (getQ x p) p (getQ x p)) (rightMinFrom x (getQ x p) x.length p (getQ x p))

/-- Stable insertion for an ascending argsort by `(priority, index)`. -/
def insIdx (prio : List ℚ) (i : ℕ) : List ℕ → List ℕ
  | [] => [i]
  | j :: js =>
    if getQ prio i < getQ prio j ∨ (getQ prio i = getQ prio j ∧ i < j) then i :: j :: js
    else j :: insIdx prio i js

/-- `np.argsort` (stable, ascending) of a priority list. -/
def argsortAsc (prio : List ℚ) : List ℕ := (List.range prio.length).foldr (insIdx prio) []

/-- Distance between two sample indices. -/
def natDist (a b : ℕ) : ℕ := max a b - min a b

/-- One step of scipy `_select_by_peak_distance`: if peak `j` is still kept,
suppress every other kept peak strictly closer than `d` samples.  (Scipy stops
each sweep at the first far-enough peak; as the peak list is sorted this
suppresses exactly the same set.) -/
def clearNear (peaks : List ℕ) (d : ℕ) (keep : List Bool) (j : ℕ) : List Bool :=
  if keep.getD j false then
    keep.mapIdx fun k b => if k ≠ j ∧ natDist (peaks.getD k 0) (peaks.getD j 0) < d then false else b
  else keep

/-- Scipy `_select_by_peak_distance`: process peaks from highest priority
(height, ties broken toward larger index) to lowest. -/
def selectByPeakDistance (peaks : List ℕ) (prio : List ℚ) (d : ℕ) : List Bool :=
  ((argsortAsc prio).reverse).foldl (clearNear peaks d) (List.replicate peaks.length true)

/-- `find_peaks` distance condition applied to a list of candidate peaks. -/
def applyDistance (x : List ℚ) (peaks : List ℕ) (d : ℕ) : List ℕ :=
  let keep := selectByPeakDistance peaks (peaks.map (getQ x)) d
  (peaks.enum.filter (fun p => keep.getD p.1 false)).map (fun p => p.2)

/-- `scipy.signal.find_peaks(x, distance=d, prominence=prom)`. -/
def findPeaksDistProm (x : List ℚ) (d : ℕ) (prom : ℚ) : List ℕ :=
  (applyDistance x (localMaxima x) d).filter fun p => decide (prom ≤ prominenceAt x p)

/-- `scipy.signal.find_peaks(x, prominence=prom)` (no distance condition). -/
def findPeaksProm (x : List ℚ) (prom : ℚ) : List ℕ :=
  (localMaxima x).filter fun p => decide (prom ≤ prominenceAt x p)

/-- `find_valleys` from `resegment_reps_fixed.py`: peaks of the negated signal. -/
def find_valleys (x : List ℚ) (d : ℕ) (prom : ℚ) : List ℕ := findPeaksDistProm (negL x) d prom

/-! ## `compute_ldlj` (performance_visualizer.py, lines 181-279) -/

/-- Number of direction changes: nonzero entries of `np.diff(np.sign(velocity))`. -/
def countDirChanges (v : List ℚ) : ℕ :=
  ((diffL (v.map signQ)).filter (fun d => decide (d ≠ 0))).length

/-- Acceleration magnitude `np.sqrt(ax**2 + ay**2 + az**2)`, with the float square
root supplied as the parameter `msqrt`. -/
def magL (msqrt : ℚ → ℚ) (ax ay az : List ℚ) : List ℚ :=
  (ax.zip (ay.zip az)).map fun p => msqrt (p.1 ^ 2 + p.2.1 ^ 2 + p.2.2 ^ 2)

/-- Jerk contribution, 0-40 points: `min(40, max(0, normalized_jerk - 1.5) * 13.3)`. -/
def ldljJerkContrib (nj : ℚ) : ℚ := min 40 (max 0 (nj - 3/2) * (133/10))

/-- Direction-change contribution, 0-35 points: `min(35, max(0, rate - 0.5) * 10)`. -/
def ldljDirContrib (dr : ℚ) : ℚ := min 35 (max 0 (dr - 1/2) * 10)

/-- Excess-peak contribution, 0-25 points: `min(25, excess_peaks * 3.3)`. -/
def ldljPeaksContrib (ex : ℚ) : ℚ := min 25 (ex * (33/10))

/-- Final pair `(irregularity_score, smoothness_score)` built from the three
contributions: the sum, and `max(0, min(100, 100 - sum))`. -/
def ldljPair (jc dc pc : ℚ) : ℚ × ℚ := (jc + dc + pc, max 0 (min 100 (100 - (jc + dc + pc))))

/-- Main computation of `compute_ldlj` after the early-return guards: normalized
jerk, direction-change rate, excess-peak count, and their clamped contributions. -/
def ldljCore (signal ts : List ℚ) (duration : ℚ) : ℚ × ℚ :=
  let dt := duration / ((ts.length - 1 : ℕ) : ℚ)
  let rom0 := maxL signal - minL signal
  let rom := if rom0 < 1/10 then 1/10 else rom0
  let velocity := (diffL signal).map (· / dt)
  let jerk := if 1 < velocity.length then (diffL velocity).map (fun v => |v / dt|) else [0]
  let mean_jerk := if 0 < jerk.length then meanL jerk else 0
  let normalized_jerk := mean_jerk / rom
  let direction_rate := if 0 < duration then (countDirChanges velocity : ℚ) / duration else 0
  let prominence := rom * (5/100)
  let total_peaks := (findPeaksProm signal prominence).length + (findPeaksProm (negL signal) prominence).length
  let excess_peaks : ℚ := ((max 0 ((total_peaks : ℤ) - 2) : ℤ) : ℚ)
  ldljPair (ldljJerkContrib normalized_jerk) (ldljDirContrib direction_rate)
    (ldljPeaksContrib excess_peaks)

/-- Condition for using the provided `filtered_mag`: present and of the same
length as the acceleration arrays. -/
def fmUsable (fm : Option (List ℚ)) (ax : List ℚ) : Bool :=
  match fm with | some f => f.length == ax.length | none => false

/-- `compute_ldlj(accel_x, accel_y, accel_z, timestamps_ms, filtered_mag)`.
Returns `(irregularity_score, smoothness_score)`.  The guards mirror the source:
fewer than 4 samples and non-positive duration return `(0, 50)` directly; an
empty timestamp array (Python `IndexError`) and a shape mismatch between the
three acceleration arrays when no usable `filtered_mag` is given (numpy
broadcast `ValueError`) are swallowed by the `except` clause, which also
returns `(0, 50)`. -/
def compute_ldlj (msqrt : ℚ → ℚ) (ax ay az ts : List ℚ) (fm : Option (List ℚ)) : ℚ × ℚ :=
  if ax.length < 4 then (0, 50)
  else if ts.length = 0 then (0, 50)
  else
    let duration := (ts.getLastD 0 - ts.headD 0) / 1000
    if duration ≤ 0 then (0, 50)
    else if fmUsable fm ax then
      ldljCore (fm.getD []) ts duration
    else if ay.length = ax.length ∧ az.length = ax.length then
      ldljCore (magL msqrt ax ay az) ts duration
    else (0, 50)

/-! ## `compute_fatigue_indicators` (performance_visualizer.py, lines 314-793)

The per-rep metric dictionaries are modelled by a total structure whose field
defaults mirror the `dict.get(key, default)` calls in the source.  Fields of
the returned dictionary that are pure presentation (the `performance_report`
block of labels and findings, `has_gyro`, `gyro_trend`, `gyro_consistency`)
are omitted; every field any claim mentions is present. -/

/-- One entry of `rep_metrics_list`; defaults are the `dict.get` defaults. -/
structure RepMetrics where
  gyro_peak : ℚ := 0
  shakiness : ℚ := 0
  duration_ms : ℚ := 0
  mean_jerk : ℚ := 0
  rom_degrees : ℚ := 0
  rom : ℚ := 0
  smoothness_score : ℚ := 50
  peak : ℚ := 0

/-- Python `round(q, k)` on floats: round half to even at `k` decimal digits
(exact on the rationals considered here). -/
def rheInt (q : ℚ) : ℤ :=
  if q - ⌊q⌋ < 1/2 then ⌊q⌋
  else if (1 : ℚ)/2 < q - ⌊q⌋ then ⌊q⌋ + 1
  else if 2 ∣ ⌊q⌋ then ⌊q⌋ else ⌊q⌋ + 1

/-- Round a rational half-to-even to `k` decimal digits. -/
def roundTo (k : ℕ) (q : ℚ) : ℚ := (rheInt (q * 10 ^ k) : ℚ) / 10 ^ k

/-- Round a real half-to-even to an integer. -/
noncomputable def rheIntR (x : ℝ) : ℤ :=
  if x - ⌊x⌋ < 1/2 then ⌊x⌋
  else if (1 : ℝ)/2 < x - ⌊x⌋ then ⌊x⌋ + 1
  else if 2 ∣ ⌊x⌋ then ⌊x⌋ else ⌊x⌋ + 1

/-- Round a real half-to-even to `k` decimal digits. -/
noncomputable def roundToR (k : ℕ) (x : ℝ) : ℝ := (rheIntR (x * 10 ^ k) : ℝ) / 10 ^ k

/-- `third = max(1, n_reps // 3)`. -/
def thirdOf (l : List RepMetrics) : ℕ := max 1 (l.length / 3)

/-- Python `arr[-third:]`. -/
def lastSlice (third : ℕ) (v : List ℚ) : List ℚ := v.drop (v.length - third)

/-- Per-rep gyroscope peaks, `[m.get('gyro_peak', 0) for m in rep_metrics_list]`. -/
def gyroPeaksOf (l : List RepMetrics) : List ℚ := l.map (·.gyro_peak)

/-- `has_gyro = any(g > 0 for g in gyro_peaks)`. -/
def hasGyro (l : List RepMetrics) : Prop := ∃ m ∈ l, 0 < m.gyro_peak

instance (l : List RepMetrics) : Decidable (hasGyro l) := by
  unfold hasGyro; infer_instance

/-- `has_shakiness = any(s > 0 for s in shakiness_vals)`. -/
def hasShakiness (l : List RepMetrics) : Prop := ∃ m ∈ l, 0 < m.shakiness

instance (l : List RepMetrics) : Decidable (hasShakiness l) := by
  unfold hasShakiness; infer_instance

/-- `has_rom_degrees = any(v > 0 for v in rom_degrees_vals)`. -/
def hasRomDegrees (l : List RepMetrics) : Prop := ∃ m ∈ l, 0 < m.rom_degrees

instance (l : List RepMetrics) : Decidable (hasRomDegrees l) := by
  unfold hasRomDegrees; infer_instance

/-- ROM series: degrees when any rep has them, else raw ROM. -/
def romsOf (l : List RepMetrics) : List ℚ :=
  if hasRomDegrees l then l.map (·.rom_degrees) else l.map (·.rom)

/-- D_ω: relative absolute change of mean peak angular velocity between the first
and last third, with a peak-acceleration fallback when no gyro data is present. -/
def D_omega (l : List RepMetrics) : ℚ :=
  let third := thirdOf l
  if hasGyro l then
    let f := meanL ((gyroPeaksOf l).take third)
    let la := meanL (lastSlice third (gyroPeaksOf l))
    if 0 < f then |f - la| / f else 0
  else
    let f := meanL ((l.map (·.peak)).take third)
    let la := meanL (lastSlice third (l.map (·.peak)))
    if 0 < f then |f - la| / f else 0

/-- `gyro_direction`: 'drop' when the late average is below the early one, else 'surge'. -/
def gyroDirection (l : List RepMetrics) : String :=
  let third := thirdOf l
  if hasGyro l then
    if meanL (lastSlice third (gyroPeaksOf l)) < meanL ((gyroPeaksOf l).take third)
    then "drop" else "surge"
  else
    if meanL (lastSlice third (l.map (·.peak))) < meanL ((l.map (·.peak)).take third)
    then "drop" else "surge"

/-- I_T: relative increase of mean rep duration between the first and last third. -/
def I_T (l : List RepMetrics) : ℚ :=
  let third := thirdOf l
  let f := meanL ((l.map (·.duration_ms)).take third)
  let la := meanL (lastSlice third (l.map (·.duration_ms)))
  if 0 < f then (la - f) / f else 0

/-- I_J: relative increase of mean jerk (irregularity score) between the thirds. -/
def I_J (l : List RepMetrics) : ℚ :=
  let third := thirdOf l
  let f := meanL ((l.map (·.mean_jerk)).take third)
  let la := meanL (lastSlice third (l.map (·.mean_jerk)))
  if 0 < f then (la - f) / f else 0

/-- I_S: relative increase of mean shakiness between the thirds, 0 without shakiness data. -/
def I_S (l : List RepMetrics) : ℚ :=
  let third := thirdOf l
  if hasShakiness l then
    let f := meanL ((l.map (·.shakiness)).take third)
    let la := meanL (lastSlice third (l.map (·.shakiness)))
    if 0 < f then (la - f) / f else 0
  else 0

/-- Weighted composite `0.35·D_ω + 0.25·I_T + 0.20·I_J + 0.20·I_S` on the
components clamped to `≥ 0`. -/
def fatigueRawQ (l : List RepMetrics) : ℚ :=
  (35/100) * max 0 (D_omega l) + (25/100) * max 0 (I_T l) +
  (20/100) * max 0 (I_J l) + (20/100) * max 0 (I_S l)

/-- Largest clamped indicator. -/
def worstIndicator (l : List RepMetrics) : ℚ :=
  max (max 0 (D_omega l)) (max (max 0 (I_T l)) (max (max 0 (I_J l)) (max 0 (I_S l))))

/-- Composite after the boost rule: above 0.40 on the worst indicator, add
`(worst − 0.40) × 0.5` and cap the total at 1.0. -/
def fatigueRawBoosted (l : List RepMetrics) : ℚ :=
  if 2/5 < worstIndicator l then min 1 (fatigueRawQ l + (worstIndicator l - 2/5) * (1/2))
  else fatigueRawQ l

/-- `fatigue_score = min(100, fatigue_raw * 100)` (before the final rounding). -/
def fatigueScoreQ (l : List RepMetrics) : ℚ := min 100 (fatigueRawBoosted l * 100)

/-- Level bands over the unrounded score. -/
def fatigueLevelQ (l : List RepMetrics) : String :=
  if fatigueScoreQ l < 10 then "minimal"
  else if fatigueScoreQ l < 20 then "low"
  else if fatigueScoreQ l < 35 then "moderate"
  else if fatigueScoreQ l < 55 then "high"
  else "severe"

/-- `scipy.stats.linregress` slope. -/
def slopeOLS (xs ys : List ℚ) : ℚ :=
  let mx := meanL xs
  let my := meanL ys
  sumL ((xs.zip ys).map fun p => (p.1 - mx) * (p.2 - my)) / sumL (xs.map fun v => (v - mx) ^ 2)

/-- Nested `get_trend`: percent-of-mean slope per rep, 0 for constant series
(`np.std == 0` is modelled as zero variance) or zero mean. -/
def get_trend (nReps : ℕ) (values : List ℚ) : ℚ :=
  if values.length < 2 ∨ varL values = 0 then 0
  else if meanL values ≠ 0 then
    (slopeOLS ((List.range nReps).map (fun i => (i : ℚ))) values / meanL values) * 100
  else 0

/-- Nested `get_consistency`: CV-based score `min(100, max(0, 100 − cv·333))` with
a guard returning 0 for fewer than 2 values or zero mean; `np.std` is the real
square root of the population variance. -/
noncomputable def get_consistency (values : List ℚ) : ℝ :=
  if values.length < 2 ∨ meanL values = 0 then 0
  else min 100 (max 0 (100 - Real.sqrt ((varL values : ℚ) : ℝ) / ((meanL values : ℚ) : ℝ) * 333))

/-- Percent change `(b − a) / a · 100` guarded by `a > 0`, as used throughout the
early-vs-late block. -/
def pctChange (a b : ℚ) : ℚ := if 0 < a then (b - a) / a * 100 else 0

/-- Percent degradation `(a − b) / a · 100` guarded by `a > 0` (smoothness and
peak comparisons subtract in the opposite direction). -/
def pctDrop (a b : ℚ) : ℚ := if 0 < a then (a - b) / a * 100 else 0

/-- The `early_vs_late` sub-dictionary. -/
structure EarlyVsLate where
  rom_change_percent : ℚ
  smoothness_degradation_percent : ℚ
  duration_increase_percent : ℚ
  peak_degradation_percent : ℚ
  gyro_peak_change_percent : ℚ
  jerk_increase_percent : ℚ
  shakiness_increase_percent : ℚ
  avg_gyro_peak_first : ℚ
  avg_gyro_peak_last : ℚ
  avg_shakiness_first : ℚ
  avg_shakiness_last : ℚ
  avg_rom_first : ℚ
  avg_rom_last : ℚ
  avg_smoothness_first : ℚ
  avg_smoothness_last : ℚ
  avg_duration_first_ms : ℚ
  avg_duration_last_ms : ℚ

/-- The dictionary returned by `compute_fatigue_indicators` (presentation-only
fields omitted, see the section comment). -/
structure FatigueResult where
  fatigue_score : ℚ
  fatigue_level : String
  D_omega : ℚ
  I_T : ℚ
  I_J : ℚ
  I_S : ℚ
  gyro_direction : String
  consistency_score : ℝ
  rom_trend : ℚ
  smoothness_trend : ℚ
  duration_trend : ℚ
  peak_trend : ℚ
  rom_consistency : ℝ
  smoothness_consistency : ℝ
  duration_consistency : ℝ
  peak_consistency : ℝ
  rom_change_percent : ℚ
  smoothness_degradation_percent : ℚ
  early_vs_late : EarlyVsLate
  n_reps_analyzed : ℕ

/-- The insufficient-data sentinel returned for fewer than 3 reps. -/
def insufficientSentinel (n : ℕ) : FatigueResult where
  fatigue_score := 0
  fatigue_level := "insufficient_data"
  D_omega := 0
  I_T := 0
  I_J := 0
  I_S := 0
  gyro_direction := "stable"
  consistency_score := 0
  rom_trend := 0
  smoothness_trend := 0
  duration_trend := 0
  peak_trend := 0
  rom_consistency := 0
  smoothness_consistency := 0
  duration_consistency := 0
  peak_consistency := 0
  rom_change_percent := 0
  smoothness_degradation_percent := 0
  early_vs_late := ⟨0, 0, 0, 0, 0, 0, 0, 0, 0, 0, 0, 0, 0, 0, 0, 0, 0⟩
  n_reps_analyzed := n

/-- `compute_fatigue_indicators(rep_metrics_list)`.  For fewer than 3 reps the
sentinel is returned; otherwise the full analysis (fatigue formula with boost,
trend and consistency analysis, early-vs-late comparison), with Python's
`round(·, k)` modelled by the half-even roundings `roundTo` / `roundToR`. -/
noncomputable def compute_fatigue_indicators (l : List RepMetrics) : FatigueResult :=
  if l.length < 3 then insufficientSentinel l.length
  else
    let n := l.length
    let third := thirdOf l
    let roms := romsOf l
    let durations := l.map (·.duration_ms)
    let smoothness := l.map (·.smoothness_score)
    let peaks := l.map (·.peak)
    let gyro_peaks := gyroPeaksOf l
    let rom_consistency := get_consistency roms
    let smoothness_consistency := get_consistency smoothness
    let duration_consistency := get_consistency durations
    let peak_consistency := get_consistency peaks
    let consistency_score := (rom_consistency + smoothness_consistency +
      duration_consistency + peak_consistency) / 4
    let avg_dur_first := meanL (durations.take third)
    let avg_dur_last := meanL (lastSlice third durations)
    let avg_jerk_first := meanL ((l.map (·.mean_jerk)).take third)
    let avg_jerk_last := meanL (lastSlice third (l.map (·.mean_jerk)))
    let avg_rom_first := meanL (roms.take third)
    let avg_rom_last := meanL (lastSlice third roms)
    let avg_smooth_first := meanL (smoothness.take third)
    let avg_smooth_last := meanL (lastSlice third smoothness)
    let avg_peak_first := meanL (peaks.take third)
    let avg_peak_last := meanL (lastSlice third peaks)
    let avg_gyro_first := if hasGyro l then meanL (gyro_peaks.take third) else 0
    let avg_gyro_last := if hasGyro l then meanL (lastSlice third gyro_peaks) else 0
    let avg_shaky_first :=
      if hasShakiness l then meanL ((l.map (·.shakiness)).take third) else 0
    let avg_shaky_last :=
      if hasShakiness l then meanL (lastSlice third (l.map (·.shakiness))) else 0
    { fatigue_score := roundTo 1 (fatigueScoreQ l)
      fatigue_level := fatigueLevelQ l
      D_omega := roundTo 4 (D_omega l)
      I_T := roundTo 4 (I_T l)
      I_J := roundTo 4 (I_J l)
      I_S := roundTo 4 (I_S l)
      gyro_direction := gyroDirection l
      consistency_score := roundToR 1 consistency_score
      rom_trend := roundTo 2 (get_trend n roms)
      smoothness_trend := roundTo 2 (get_trend n smoothness)
      duration_trend := roundTo 2 (get_trend n durations)
      peak_trend := roundTo 2 (get_trend n peaks)
      rom_consistency := roundToR 1 rom_consistency
      smoothness_consistency := roundToR 1 smoothness_consistency
      duration_consistency := roundToR 1 duration_consistency
      peak_consistency := roundToR 1 peak_consistency
      rom_change_percent := roundTo 1 (pctChange avg_rom_first avg_rom_last)
      smoothness_degradation_percent := roundTo 1 (pctDrop avg_smooth_first avg_smooth_last)
      early_vs_late :=
        { rom_change_percent := roundTo 1 (pctChange avg_rom_first avg_rom_last)
          smoothness_degradation_percent := roundTo 1 (pctDrop avg_smooth_first avg_smooth_last)
          duration_increase_percent := roundTo 1 (pctChange avg_dur_first avg_dur_last)
          peak_degradation_percent := roundTo 1 (pctDrop avg_peak_first avg_peak_last)
          gyro_peak_change_percent := roundTo 1 (pctChange avg_gyro_first avg_gyro_last)
          jerk_increase_percent := roundTo 1 (pctChange avg_jerk_first avg_jerk_last)
          shakiness_increase_percent := roundTo 1 (pctChange avg_shaky_first avg_shaky_last)
          avg_gyro_peak_first := roundTo 4 avg_gyro_first
          avg_gyro_peak_last := roundTo 4 avg_gyro_last
          avg_shakiness_first := roundTo 4 avg_shaky_first
          avg_shakiness_last := roundTo 4 avg_shaky_last
          avg_rom_first := roundTo 2 avg_rom_first
          avg_rom_last := roundTo 2 avg_rom_last
          avg_smoothness_first := roundTo 1 avg_smooth_first
          avg_smoothness_last := roundTo 1 avg_smooth_last
          avg_duration_first_ms := roundTo 0 avg_dur_first
          avg_duration_last_ms := roundTo 0 avg_dur_last }
      n_reps_analyzed := n }

/-! ## `resegment_single_source` (resegment_reps_fixed.py, lines 270-615)

The dataframe is modelled by its three columns of interest: `timestamp_ms`, the
detection signal column (`filteredMag`) and the pre-existing `rep` column.
The `rep` field is an `Option` because the guided fallback's
`original_reps = sorted(...) if 'rep' in df.columns else []` (line 499)
explicitly handles an absent column; the output-building phase, however,
unconditionally copies `df['rep']` (line 543), so on a dataframe without a
`rep` column the program raises `KeyError` there and produces no output at
all.  The model is therefore faithful exactly on dataframes whose `rep`
column is present (`rep = some _`); for `rep = none` it extends the
boundary-finding phase conservatively past the crash point, and every concrete
input a theorem below is evaluated at carries a `rep` column.  The embedding
follows the
`exercise_name == "UNKNOWN"` path — the branch taken for every dataframe
without a recognised `source_file` column — whose parameters are
`prominence_factor = 0.1`, `std_factor = 0.5`, `min_prominence_floor = 0.1`,
the caller-supplied duration bounds, and the standard smoothing branch
(`savgol_filter(signal, 11, 3)` only when `len(signal) > 11`, supplied here as
the parameter `sg`).  The exercise-specific branches differ from this one only
in constants. -/

/-- The columns of one source dataframe. -/
structure SessionDF where
  timestamp_ms : List ℚ
  signal : List ℚ
  rep : Option (List ℕ)

/-- One entry of the returned `rep_info` list.  `next_rep_start_idx` is present
only on the reps built in the main boundary loop, not on the final tail rep,
hence the `Option`. -/
structure RepInfo where
  rep : ℕ
  start_idx : ℕ
  end_idx : ℕ
  next_rep_start_idx : Option ℕ
  start_time_ms : ℚ
  end_time_ms : ℚ
  duration_ms : ℚ
  peak_idx : ℕ
  peak_time_ms : ℚ
  peak_value : ℚ
  valley_value : ℚ
  amplitude : ℚ
  deriving Repr, DecidableEq

/-- Stable insertion into an ascending list of naturals. -/
def insSortedN (x : ℕ) : List ℕ → List ℕ
  | [] => [x]
  | y :: ys => if x ≤ y then x :: y :: ys else y :: insSortedN x ys

/-- Ascending sort of naturals. -/
def sortN (l : List ℕ) : List ℕ := l.foldr insSortedN []

/-- Source line 499: `sorted([r for r in df['rep'].unique() if r > 0])
if 'rep' in df.columns else []`. -/
def originalRepsOf (repCol : Option (List ℕ)) : List ℕ :=
  match repCol with
  | none => []
  | some rs => sortN ((rs.filter (fun r => decide (0 < r))).dedup)

/-- Standard smoothing branch: `savgol_filter(signal, 11, 3)` (the parameter
`sg`) only when the signal has more than 11 samples. -/
def smoothSignal (sg : List ℚ → List ℚ) (signal : List ℚ) : List ℚ :=
  if 11 < signal.length then sg signal else signal

/-- `min_prominence = max(range * 0.1, std * 0.5, 0.1)` with `np.std` supplied
as `sqrtQ` applied to the population variance. -/
def minPromOf (sqrtQ : ℚ → ℚ) (smooth : List ℚ) : ℚ :=
  max ((maxL smooth - minL smooth) * (1/10)) (max (sqrtQ (varL smooth) * (1/2)) (1/10))

/-- `min_distance = int(0.5 * (1000 / median(diff(timestamps))))`, 5 for fewer
than 2 samples. -/
def minDistOf (ts : List ℚ) : ℕ :=
  if 1 < ts.length then (truncQ ((1/2) * (1000 / medianL (diffL ts)))).toNat else 5

/-- Retry ladder: prominence scaled by 0.5, 0.25, 0.1, stopping at the first
scale yielding at least 2 valleys (which also updates `min_prominence`); when
every retry fails, the candidates are the 0.1-scale result and `min_prominence`
keeps its base value. -/
def retryLoop (smooth : List ℚ) (d : ℕ) (prom : ℚ) : List ℕ × ℚ :=
  let r1 := find_valleys smooth d (prom * (1/2))
  if 2 ≤ r1.length then (r1, prom * (1/2))
  else
    let r2 := find_valleys smooth d (prom * (1/4))
    if 2 ≤ r2.length then (r2, prom * (1/4))
    else
      let r3 := find_valleys smooth d (prom * (1/10))
      if 2 ≤ r3.length then (r3, prom * (1/10)) else (r3, prom)

/-- Valley candidates with the retry and peak fallbacks: base detection, the
retry ladder when it finds fewer than 2 valleys, then peak (not valley)
detection at half the base prominence, keeping the peaks only when at least 2
are found.  Returns the candidates together with the effective
`min_prominence` (used later by the tail search). -/
def candidateLadder (smooth : List ℚ) (d : ℕ) (prom : ℚ) : List ℕ × ℚ :=
  let v0 := find_valleys smooth d prom
  if 2 ≤ v0.length then (v0, prom)
  else
    let r := retryLoop smooth d prom
    if 2 ≤ r.1.length then r
    else
      let pk := findPeaksDistProm smooth d (prom * (1/2))
      if 2 ≤ pk.length then (pk, r.2) else r

/-- One step of the duration filter (source lines 476-483): accept a candidate
exactly when its time distance to the last accepted boundary lies in
`[min_rep_duration_ms, max_rep_duration_ms]`. -/
def durStep (ts : List ℚ) (minD maxD : ℚ) (acc : List ℕ) (idx : ℕ) : List ℕ :=
  if minD ≤ getQ ts idx - getQ ts (acc.getLastD 0) ∧
     getQ ts idx - getQ ts (acc.getLastD 0) ≤ maxD
  then acc ++ [idx] else acc

/-- Duration filter (source lines 473-483): walk the candidates in order,
starting from boundary 0. -/
def durationFilter (ts : List ℚ) (minD maxD : ℚ) (cand : List ℕ) : List ℕ :=
  cand.foldl (durStep ts minD maxD) [0]

/-- Tail handling (source lines 486-496): when the last accepted boundary is not
the final sample and at least `min_rep_duration_ms` remains, search the
remaining smoothed signal (at half distance, half effective prominence) and
append the last local valley found. -/
def tailExtend (smooth ts : List ℚ) (d : ℕ) (effProm minD : ℚ) (n : ℕ) (valid : List ℕ) : List ℕ :=
  if valid.getLastD 0 ≠ n - 1 then
    if minD ≤ ts.getLastD 0 - getQ ts (valid.getLastD 0) then
      let rem := smooth.drop (valid.getLastD 0)
      if d < rem.length then
        match (find_valleys rem (d / 2) (effProm * (1/2))).getLast? with
        | some j => valid ++ [valid.getLastD 0 + j]
        | none => valid
      else valid
    else valid
  else valid

/-- One guided-fallback step (source lines 505-528): around the end of one
externally labelled rep, search a window of `±max(int(span*0.2), 10)` samples
for the signal minimum and append it when it lies beyond the last boundary.
`(re - rs) / 5` is exactly `int(rep_duration * 0.2)` for natural spans. -/
def guidedStep (smooth : List ℚ) (repCol : List ℕ) (n : ℕ) (valid : List ℕ) (r : ℕ) : List ℕ :=
  let ir := (List.range repCol.length).filter (fun i => repCol.getD i 0 == r)
  if ir.isEmpty then valid
  else
    let rs := ir.headD 0
    let re := ir.getLastD 0
    let w := max ((re - rs) / 5) 10
    let ss := re - w
    let se := min n (re + w)
    let seg := (smooth.drop ss).take (se - ss)
    if 3 < seg.length then
      let vi := ss + argminL seg
      if valid.getLastD 0 < vi then valid ++ [vi] else valid
    else valid

/-- Guided fallback (source lines 500-532): refine each original rep boundary,
then close with the final sample index when it is not yet the last boundary. -/
def guidedFor (smooth : List ℚ) (repCol : List ℕ) (n : ℕ) : List ℕ :=
  let base := (originalRepsOf (some repCol)).foldl (guidedStep smooth repCol n) [0]
  if base.getLastD 0 < n - 1 then base ++ [n - 1] else base

/-- Modelled from the spec: the GUIDED_FALLBACK step searching "a window of
±20% of that rep's span around its end" taken literally, i.e. without the
10-sample floor the code applies; everything else is as `guidedStep`.  Used
only to compare the code against the specification text. -/
def guidedStepSpecWindow (smooth : List ℚ) (repCol : List ℕ) (n : ℕ) (valid : List ℕ) (r : ℕ) : List ℕ :=
  let ir := (List.range repCol.length).filter (fun i => repCol.getD i 0 == r)
  if ir.isEmpty then valid
  else
    let rs := ir.headD 0
    let re := ir.getLastD 0
    let w := (re - rs) / 5
    let ss := re - w
    let se := min n (re + w)
    let seg := (smooth.drop ss).take (se - ss)
    if 3 < seg.length then
      let vi := ss + argminL seg
      if valid.getLastD 0 < vi then valid ++ [vi] else valid
    else valid

/-- Modelled from the spec: `guidedFor` with the literal ±20% window. -/
def guidedForSpecWindow (smooth : List ℚ) (repCol : List ℕ) (n : ℕ) : List ℕ :=
  let base := (originalRepsOf (some repCol)).foldl (guidedStepSpecWindow smooth repCol n) [0]
  if base.getLastD 0 < n - 1 then base ++ [n - 1] else base

/-- The accepted boundary list of `resegment_single_source`: candidate ladder,
duration filter, tail handling, then the guided fallback when at most one
boundary survived and original rep labels exist. -/
def validBoundaries (sg : List ℚ → List ℚ) (sqrtQ : ℚ → ℚ) (df : SessionDF) (minD maxD : ℚ) : List ℕ :=
  let n := df.signal.length
  let smooth := smoothSignal sg df.signal
  let cp := candidateLadder smooth (minDistOf df.timestamp_ms) (minPromOf sqrtQ smooth)
  let v1 := durationFilter df.timestamp_ms minD maxD cp.1
  let v2 := tailExtend smooth df.timestamp_ms (minDistOf df.timestamp_ms) cp.2 minD n v1
  if v2.length ≤ 1 ∧ originalRepsOf df.rep ≠ [] then guidedFor smooth (df.rep.getD []) n
  else v2

/-- One rep dictionary of the main boundary loop (source lines 548-581): rep
`i+1` spans `[vs_i, vs_{i+1})`, its times run to the sample before the next
boundary, the peak is located on the smoothed signal, and the peak and valley
values are read from the raw signal column. -/
def mainRepInfo (smooth signal ts : List ℚ) (vs : List ℕ) (i : ℕ) : RepInfo :=
  let s := vs.getD i 0
  let e := vs.getD (i + 1) 0
  let pk := s + argmaxL ((smooth.drop s).take (e - s))
  { rep := i + 1, start_idx := s, end_idx := e - 1, next_rep_start_idx := some e,
    start_time_ms := getQ ts s, end_time_ms := getQ ts (e - 1),
    duration_ms := getQ ts (e - 1) - getQ ts s,
    peak_idx := pk, peak_time_ms := getQ ts pk, peak_value := getQ signal pk,
    valley_value := getQ signal s, amplitude := getQ signal pk - getQ signal s }

/-- The final tail rep (source lines 584-613), created whenever the last
boundary is not the final sample; it spans `[vs_last, n-1]` inclusive and
carries no `next_rep_start_idx`. -/
def tailRepInfo (smooth signal ts : List ℚ) (n : ℕ) (vs : List ℕ) : RepInfo :=
  let s := vs.getLastD 0
  let e := n - 1
  let pk := s + argmaxL ((smooth.drop s).take (e + 1 - s))
  { rep := vs.length, start_idx := s, end_idx := e, next_rep_start_idx := none,
    start_time_ms := getQ ts s, end_time_ms := getQ ts e,
    duration_ms := getQ ts e - getQ ts s,
    peak_idx := pk, peak_time_ms := getQ ts pk, peak_value := getQ signal pk,
    valley_value := getQ signal s, amplitude := getQ signal pk - getQ signal s }

/-- The full `rep_info` list built from the accepted boundaries. -/
def buildRepInfos (smooth signal ts : List ℚ) (n : ℕ) (vs : List ℕ) : List RepInfo :=
  let mains := (List.range (vs.length - 1)).map (mainRepInfo smooth signal ts vs)
  if vs.getLastD 0 < n - 1 then mains ++ [tailRepInfo smooth signal ts n vs] else mains

/-- `df.loc[a:b, 'rep'] = v` on the positional rep-label column. -/
def writeRange (a b v : ℕ) (arr : List ℕ) : List ℕ :=
  arr.mapIdx fun i x => if a ≤ i ∧ i ≤ b then v else x

/-- The resegmented rep-label column: zero everywhere, then the main loop's
writes `[vs_i, vs_{i+1} - 1] := i+1`, then the tail write `[vs_last, n-1] := k`
when the last boundary is not the final sample. -/
def buildAssignment (n : ℕ) (vs : List ℕ) : List ℕ :=
  let base := (List.range (vs.length - 1)).foldl
    (fun arr i => writeRange (vs.getD i 0) (vs.getD (i + 1) 0 - 1) (i + 1) arr)
    (List.replicate n 0)
  if vs.getLastD 0 < n - 1 then writeRange (vs.getLastD 0) (n - 1) vs.length base else base

/-- `resegment_single_source(df, 'filteredMag', min_rep_duration_ms,
max_rep_duration_ms)` restricted to the UNKNOWN-exercise branch: returns the
new rep-label column and the `rep_info` list. -/
def resegment_single_source (sg : List ℚ → List ℚ) (sqrtQ : ℚ → ℚ) (df : SessionDF)
    (minD maxD : ℚ) : List ℕ × List RepInfo :=
  let n := df.signal.length
  let smooth := smoothSignal sg df.signal
  let vs := validBoundaries sg sqrtQ df minD maxD
  (buildAssignment n vs, buildRepInfos smooth df.signal df.timestamp_ms n vs)

/-! ## Concentric/eccentric phase split (main_csv.py, lines 683-761) -/

/-- The phase-related features computed inside `extract_features_per_rep`. -/
structure PhaseSplit where
  primary_axis : String
  transition_idx : ℕ
  peak_type : String
  concentric_duration_ms : ℚ
  eccentric_duration_ms : ℚ
  concentric_eccentric_ratio : ℚ
  concentric_percentage : ℚ
  eccentric_percentage : ℚ

/-- Primary movement axis: Python `max({'X':rx,'Y':ry,'Z':rz}, key=...)` keeps the
first key attaining the maximum in insertion order X, Y, Z. -/
def primaryAxisOf (rx ry rz : ℚ) : String :=
  if ry ≤ rx ∧ rz ≤ rx then "X" else if rz ≤ ry then "Y" else "Z"

/-- The primary-axis signal: `accelX`, `accelY` or `accelZ` according to the
chosen primary axis. -/
def phaseSignal (ax ay az : List ℚ) : List ℚ :=
  let primary := primaryAxisOf (maxL ax - minL ax) (maxL ay - minL ay) (maxL az - minL az)
  if primary = "X" then ax else if primary = "Y" then ay else az

/-- All detected peaks on the primary signal: `find_peaks` with `distance=10,
prominence=0.5` on the signal and on its negation, concatenated. -/
def phasePeaks (signal : List ℚ) : List ℕ :=
  findPeaksDistProm signal 10 (1/2) ++ findPeaksDistProm (negL signal) 10 (1/2)

/-- The transition sample: the detected peak of largest absolute amplitude,
falling back to `np.argmax(np.abs(primary_signal))` when no peak is found. -/
def phaseTransition (signal : List ℚ) : ℕ :=
  let all_peaks := phasePeaks signal
  if all_peaks.isEmpty then argmaxL (signal.map (fun v => |v|))
  else all_peaks.getD (argmaxL (all_peaks.map (fun p => |getQ signal p|))) 0

/-- `concentric_duration`: `timestamps[transition_idx] - timestamps[0]` when
`transition_idx > 0`, else 0. -/
def phaseConc (ts : List ℚ) (t : ℕ) : ℚ :=
  if 0 < t then getQ ts t - getQ ts 0 else 0

/-- `eccentric_duration`: `timestamps[-1] - timestamps[transition_idx]` when
`transition_idx < len(rep_data)`, else 0. -/
def phaseEcc (ts : List ℚ) (t : ℕ) : ℚ :=
  if t < ts.length then ts.getLastD 0 - getQ ts t else 0

/-- The concentric/eccentric phase split of `extract_features_per_rep`: choose
the accelerometer axis of greatest range, detect positive and negative peaks on
it (`find_peaks` with `distance=10, prominence=0.5` on the signal and its
negation), take the detected peak of largest absolute amplitude as the
transition (falling back to `argmax(abs(signal))` when no peak is found), then
split the rep time at the transition. -/
def phaseSplit (ax ay az ts : List ℚ) : PhaseSplit :=
  let signal := phaseSignal ax ay az
  let transition := phaseTransition signal
  let ptype := if 0 < getQ signal transition then "positive" else "negative"
  let conc := phaseConc ts transition
  let ecc := phaseEcc ts transition
  let total := conc + ecc
  { primary_axis := primaryAxisOf (maxL ax - minL ax) (maxL ay - minL ay) (maxL az - minL az)
    transition_idx := transition
    peak_type := ptype
    concentric_duration_ms := conc
    eccentric_duration_ms := ecc
    concentric_eccentric_ratio := if 0 < ecc then conc / ecc else 0
    concentric_percentage := if 0 < total then conc / total * 100 else 0
    eccentric_percentage := if 0 < total then ecc / total * 100 else 0 }

/-! ## Smoothness score: claims C3 and C10 -/

lemma ldljJerkContrib_nonneg (nj : ℚ) : 0 ≤ ldljJerkContrib nj :=
  le_min (by norm_num) (mul_nonneg (le_max_left _ _) (by norm_num))

lemma ldljDirContrib_nonneg (dr : ℚ) : 0 ≤ ldljDirContrib dr :=
  le_min (by norm_num) (mul_nonneg (le_max_left _ _) (by norm_num))

lemma ldljPeaksContrib_nonneg (ex : ℚ) (hex : 0 ≤ ex) : 0 ≤ ldljPeaksContrib ex :=
  le_min (by norm_num) (mul_nonneg hex (by norm_num))

/-- With each contribution inside its clamp range, the two scores sum to 100. -/
lemma ldljPair_sum (jc dc pc : ℚ) (h1 : 0 ≤ jc) (h2 : jc ≤ 40) (h3 : 0 ≤ dc) (h4 : dc ≤ 35)
    (h5 : 0 ≤ pc) (h6 : pc ≤ 25) : (ldljPair jc dc pc).1 + (ldljPair jc dc pc).2 = 100 := by
  unfold ldljPair
  dsimp only
  rw [min_eq_right (by linarith), max_eq_right (by linarith)]
  ring

/-- The computed branch of `compute_ldlj` always returns scores summing to 100. -/
lemma ldljCore_sum (s t : List ℚ) (d : ℚ) :
    (ldljCore s t d).1 + (ldljCore s t d).2 = 100 := by
  simp only [ldljCore]
  exact ldljPair_sum _ _ _ (ldljJerkContrib_nonneg _) (min_le_left _ _)
    (ldljDirContrib_nonneg _) (min_le_left _ _)
    (ldljPeaksContrib_nonneg _ (by exact_mod_cast le_max_left 0 _)) (min_le_left _ _)

/-- C3 (amended): for every rep with at least 4 samples, a positive time span,
and compatible array shapes, the returned irregularity and smoothness scores
sum to exactly 100; reps that short-circuit return `(0, 50)` instead, so the
universal claim over all inputs fails (see the counterexample). -/
theorem smoothness_irregularity_sum_spec (msqrt : ℚ → ℚ) (ax ay az ts : List ℚ)
    (fm : Option (List ℚ)) (h4 : 4 ≤ ax.length) (hts : ts.length ≠ 0)
    (hdur : 0 < ts.getLastD 0 - ts.headD 0)
    (hcompat : (match fm with | some f => f.length = ax.length | none => False) ∨
      (ay.length = ax.length ∧ az.length = ax.length)) :
    (compute_ldlj msqrt ax ay az ts fm).1 + (compute_ldlj msqrt ax ay az ts fm).2 = 100 := by
  have hd : ¬((ts.getLastD 0 - ts.headD 0) / 1000 ≤ 0) := by
    rw [not_le]
    positivity
  simp only [compute_ldlj, if_neg (by omega : ¬ax.length < 4), if_neg hts, if_neg hd]
  by_cases hb : fmUsable fm ax = true
  · rw [if_pos hb]
    exact ldljCore_sum _ _ _
  · rw [if_neg hb]
    rcases hcompat with hfm | hl
    · cases fm with
      | none => exact hfm.elim
      | some f => exact absurd (by simpa [fmUsable] using hfm) hb
    · rw [if_pos hl]
      exact ldljCore_sum _ _ _

/-- C3 (counterexample): a rep with only 3 samples returns the fixed pair
`(0, 50)`, whose components sum to 50, not 100 — refuting the claim quantified
over reps with very few samples. -/
theorem smoothness_sum_cex :
    compute_ldlj (fun _ => 0) [1, 2, 3] [1, 2, 3] [1, 2, 3] [0, 50, 100] none = (0, 50) ∧
    ¬((compute_ldlj (fun _ => 0) [1, 2, 3] [1, 2, 3] [1, 2, 3] [0, 50, 100] none).1 +
      (compute_ldlj (fun _ => 0) [1, 2, 3] [1, 2, 3] [1, 2, 3] [0, 50, 100] none).2 = 100) := by
  have h : compute_ldlj (fun _ => 0) [1, 2, 3] [1, 2, 3] [1, 2, 3] [0, 50, 100] none = (0, 50) := by
    norm_num [compute_ldlj]
  refine ⟨h, ?_⟩
  rw [h]
  norm_num

/-- C3 (witness for the amended theorem): a 4-sample rep with matching
`filtered_mag`; the scores sum to 100. -/
theorem smoothness_irregularity_sum_spec_witness :
    (compute_ldlj (fun _ => 0) [1, 2, 3, 4] [1, 2, 3, 4] [1, 2, 3, 4] [0, 100, 200, 300]
      (some [0, 1, 0, 1])).1 +
    (compute_ldlj (fun _ => 0) [1, 2, 3, 4] [1, 2, 3, 4] [1, 2, 3, 4] [0, 100, 200, 300]
      (some [0, 1, 0, 1])).2 = 100 :=
  smoothness_irregularity_sum_spec (fun _ => 0) [1, 2, 3, 4] [1, 2, 3, 4] [1, 2, 3, 4]
    [0, 100, 200, 300] (some [0, 1, 0, 1]) (by norm_num) (by norm_num) (by norm_num)
    (Or.inl (by norm_num))

/-- C10: `compute_ldlj` short-circuits to `(0, 50)` for fewer than 4 samples,
for coinciding first and last timestamps (non-positive duration), and on the
exception paths the `except` clause swallows (empty timestamp array, shape
mismatch of the acceleration arrays without a usable `filtered_mag`). -/
theorem ldlj_short_circuit_spec (msqrt : ℚ → ℚ) (ax ay az ts : List ℚ) (fm : Option (List ℚ)) :
    (ax.length < 4 → compute_ldlj msqrt ax ay az ts fm = (0, 50)) ∧
    (ts.getLastD 0 = ts.headD 0 → compute_ldlj msqrt ax ay az ts fm = (0, 50)) ∧
    (ts.length = 0 → compute_ldlj msqrt ax ay az ts fm = (0, 50)) ∧
    ((match fm with | some f => f.length ≠ ax.length | none => True) →
      ¬(ay.length = ax.length ∧ az.length = ax.length) →
      compute_ldlj msqrt ax ay az ts fm = (0, 50)) := by
  refine ⟨fun h => by simp only [compute_ldlj, if_pos h], fun h => ?_, fun h => ?_, fun h1 h2 => ?_⟩
  · by_cases h1 : ax.length < 4
    · simp only [compute_ldlj, if_pos h1]
    · by_cases h2 : ts.length = 0
      · simp only [compute_ldlj, if_neg h1, if_pos h2]
      · simp only [compute_ldlj, if_neg h1, if_neg h2, h, sub_self, zero_div, if_pos le_rfl]
  · by_cases h1 : ax.length < 4
    · simp only [compute_ldlj, if_pos h1]
    · simp only [compute_ldlj, if_neg h1, if_pos h]
  · by_cases ha : ax.length < 4
    · simp only [compute_ldlj, if_pos ha]
    · by_cases hb : ts.length = 0
      · simp only [compute_ldlj, if_neg ha, if_pos hb]
      · by_cases hc : (ts.getLastD 0 - ts.headD 0) / 1000 ≤ 0
        · simp only [compute_ldlj, if_neg ha, if_neg hb, if_pos hc]
        · have hfm : ¬(fmUsable fm ax = true) := by
            cases fm with
            | none => simp [fmUsable]
            | some f => simpa [fmUsable] using h1
          simp only [compute_ldlj, if_neg ha, if_neg hb, if_neg hc, if_neg hfm, if_neg h2]

/-- C10 (witness): a 3-sample rep hits the first short-circuit. -/
theorem ldlj_short_circuit_spec_witness :
    compute_ldlj (fun _ => 0) [1, 2, 3] [4, 5, 6] [7, 8, 9] [0, 10, 20] none = (0, 50) :=
  (ldlj_short_circuit_spec (fun _ => 0) [1, 2, 3] [4, 5, 6] [7, 8, 9] [0, 10, 20] none).1
    (by norm_num)

/-! ## Fatigue aggregator: claims C1, C2, C9 -/

/-- C2: for fewer than 3 reps (including none) the aggregator returns the
fully-populated insufficient-data sentinel — every numeric field 0,
`fatigue_level = "insufficient_data"`, `n_reps_analyzed` the input length —
and, the embedding being total, never raises. -/
theorem insufficient_data_sentinel_spec (l : List RepMetrics) (h : l.length < 3) :
    compute_fatigue_indicators l = insufficientSentinel l.length ∧
    (compute_fatigue_indicators l).fatigue_score = 0 ∧
    (compute_fatigue_indicators l).fatigue_level = "insufficient_data" ∧
    (compute_fatigue_indicators l).D_omega = 0 ∧
    (compute_fatigue_indicators l).I_T = 0 ∧
    (compute_fatigue_indicators l).I_J = 0 ∧
    (compute_fatigue_indicators l).I_S = 0 ∧
    (compute_fatigue_indicators l).gyro_direction = "stable" ∧
    (compute_fatigue_indicators l).consistency_score = 0 ∧
    (compute_fatigue_indicators l).rom_trend = 0 ∧
    (compute_fatigue_indicators l).smoothness_trend = 0 ∧
    (compute_fatigue_indicators l).duration_trend = 0 ∧
    (compute_fatigue_indicators l).peak_trend = 0 ∧
    (compute_fatigue_indicators l).rom_consistency = 0 ∧
    (compute_fatigue_indicators l).smoothness_consistency = 0 ∧
    (compute_fatigue_indicators l).duration_consistency = 0 ∧
    (compute_fatigue_indicators l).peak_consistency = 0 ∧
    (compute_fatigue_indicators l).rom_change_percent = 0 ∧
    (compute_fatigue_indicators l).smoothness_degradation_percent = 0 ∧
    (compute_fatigue_indicators l).early_vs_late =
      ⟨0, 0, 0, 0, 0, 0, 0, 0, 0, 0, 0, 0, 0, 0, 0, 0, 0⟩ ∧
    (compute_fatigue_indicators l).n_reps_analyzed = l.length := by
  have hs : compute_fatigue_indicators l = insufficientSentinel l.length := by
    simp only [compute_fatigue_indicators, if_pos h]
  rw [hs]
  exact ⟨rfl, rfl, rfl, rfl, rfl, rfl, rfl, rfl, rfl, rfl, rfl, rfl, rfl, rfl, rfl, rfl,
    rfl, rfl, rfl, rfl, rfl⟩

/-- C2 (witness): a session of exactly 2 reps yields the sentinel. -/
theorem insufficient_data_sentinel_spec_witness :
    ([({} : RepMetrics), {}] : List RepMetrics).length < 3 ∧
    compute_fatigue_indicators [({} : RepMetrics), {}] = insufficientSentinel 2 :=
  ⟨by norm_num, (insufficient_data_sentinel_spec [({} : RepMetrics), {}] (by norm_num)).1⟩

/-- C1 (amended): for at least 3 reps, the composite is
`0.35·max(0,D_ω) + 0.25·max(0,I_T) + 0.20·max(0,I_J) + 0.20·max(0,I_S)`, the
boost adds `(worst − 0.40)·0.5` capped at 1.0 when the worst clamped indicator
exceeds 0.40, the score `min(100, composite·100)` lies in `[0, 100]`, the
level bands over that unrounded score are minimal/low/moderate/high/severe at
10/20/35/55 — but the *returned* `fatigue_score` is the score rounded half-even
to one decimal, not the raw clamped product (see the counterexample). -/
theorem fatigue_score_level_spec (l : List RepMetrics) (h : 3 ≤ l.length) :
    let D := max 0 (D_omega l)
    let T := max 0 (I_T l)
    let J := max 0 (I_J l)
    let S := max 0 (I_S l)
    let composite := 35/100 * D + 25/100 * T + 20/100 * J + 20/100 * S
    let worst := max D (max T (max J S))
    let boosted := if 2/5 < worst then min 1 (composite + (worst - 2/5) * (1/2)) else composite
    let score := min 100 (boosted * 100)
    0 ≤ score ∧ score ≤ 100 ∧
    (compute_fatigue_indicators l).fatigue_score = roundTo 1 score ∧
    (compute_fatigue_indicators l).fatigue_level =
      (if score < 10 then "minimal" else if score < 20 then "low"
       else if score < 35 then "moderate" else if score < 55 then "high" else "severe") := by
  intro D T J S composite worst boosted score
  have hcomp : 0 ≤ composite := by
    have hD : 0 ≤ D := le_max_left _ _
    have hT : 0 ≤ T := le_max_left _ _
    have hJ : 0 ≤ J := le_max_left _ _
    have hS : 0 ≤ S := le_max_left _ _
    positivity
  have hboost : 0 ≤ boosted := by
    unfold_let boosted
    split
    · rename_i hw
      exact le_min (by norm_num) (add_nonneg hcomp (mul_nonneg (by linarith [hw]) (by norm_num)))
    · exact hcomp
  have hraw : fatigueRawBoosted l = boosted := by
    unfold fatigueRawBoosted fatigueRawQ worstIndicator
    rfl
  have hscore : fatigueScoreQ l = score := by
    unfold fatigueScoreQ
    rw [hraw]
  refine ⟨le_min (by norm_num) (by positivity), min_le_left _ _, ?_, ?_⟩
  · simp only [compute_fatigue_indicators, if_neg (not_lt.mpr h)]
    rw [hscore]
  · simp only [compute_fatigue_indicators, if_neg (not_lt.mpr h)]
    unfold fatigueLevelQ
    rw [hscore]

/-- Concrete 3-rep session for the C1 counterexample and witness: stable gyro
peaks, durations drifting from 1000 ms to 1050 ms. -/
def fatigueCexReps : List RepMetrics :=
  [{ gyro_peak := 1, duration_ms := 1000 }, { gyro_peak := 1, duration_ms := 1025 },
   { gyro_peak := 1, duration_ms := 1050 }]

lemma fatigueCex_D : D_omega fatigueCexReps = 0 := by
  norm_num [D_omega, hasGyro, fatigueCexReps, thirdOf, gyroPeaksOf, lastSlice, meanL, sumL]

lemma fatigueCex_T : I_T fatigueCexReps = 1/20 := by
  norm_num [I_T, fatigueCexReps, thirdOf, lastSlice, meanL, sumL]

lemma fatigueCex_J : I_J fatigueCexReps = 0 := by
  norm_num [I_J, fatigueCexReps, thirdOf, lastSlice, meanL, sumL]

lemma fatigueCex_S : I_S fatigueCexReps = 0 := by
  norm_num [I_S, hasShakiness, fatigueCexReps]

lemma fatigueCex_score : fatigueScoreQ fatigueCexReps = 5/4 := by
  rw [fatigueScoreQ, fatigueRawBoosted, fatigueRawQ, worstIndicator,
    fatigueCex_D, fatigueCex_T, fatigueCex_J, fatigueCex_S]
  norm_num

/-- C1 (counterexample): on this 3-rep session the composite is 0.0125, so the
clamped product is 1.25; the dictionary rounds it to one decimal and returns
1.2, refuting "the returned fatigue_score equals the composite × 100 clamped
to [0,100]". -/
theorem fatigue_score_rounding_cex :
    (compute_fatigue_indicators fatigueCexReps).fatigue_score = 6/5 ∧
    min 100 ((if 2/5 < worstIndicator fatigueCexReps then
        min 1 (fatigueRawQ fatigueCexReps + (worstIndicator fatigueCexReps - 2/5) * (1/2))
      else fatigueRawQ fatigueCexReps) * 100) = 5/4 ∧
    ((6 : ℚ)/5 ≠ 5/4) := by
  have hclaim : min 100 ((if 2/5 < worstIndicator fatigueCexReps then
      min 1 (fatigueRawQ fatigueCexReps + (worstIndicator fatigueCexReps - 2/5) * (1/2))
    else fatigueRawQ fatigueCexReps) * 100) = 5/4 := by
    have := fatigueCex_score
    rw [fatigueScoreQ, fatigueRawBoosted] at this
    exact this
  refine ⟨?_, hclaim, by norm_num⟩
  have h3 : ¬(fatigueCexReps.length < 3) := by norm_num [fatigueCexReps]
  simp only [compute_fatigue_indicators, if_neg h3]
  rw [fatigueCex_score]
  have hfl : ⌊(25 : ℚ)/2⌋ = 12 := by
    rw [Int.floor_eq_iff]
    norm_num
  norm_num [roundTo, rheInt, hfl]

/-- C1 (witness for the amended theorem): the rounded score at the concrete
session equals `roundTo 1` of the clamped composite product. -/
theorem fatigue_score_level_spec_witness :
    3 ≤ fatigueCexReps.length ∧
    (compute_fatigue_indicators fatigueCexReps).fatigue_score =
      roundTo 1 (min 100 ((if 2/5 < max (max 0 (D_omega fatigueCexReps))
          (max (max 0 (I_T fatigueCexReps)) (max (max 0 (I_J fatigueCexReps))
            (max 0 (I_S fatigueCexReps)))) then
        min 1 ((35/100 * max 0 (D_omega fatigueCexReps) + 25/100 * max 0 (I_T fatigueCexReps) +
          20/100 * max 0 (I_J fatigueCexReps) + 20/100 * max 0 (I_S fatigueCexReps)) +
          (max (max 0 (D_omega fatigueCexReps)) (max (max 0 (I_T fatigueCexReps))
            (max (max 0 (I_J fatigueCexReps)) (max 0 (I_S fatigueCexReps)))) - 2/5) * (1/2))
      else (35/100 * max 0 (D_omega fatigueCexReps) + 25/100 * max 0 (I_T fatigueCexReps) +
        20/100 * max 0 (I_J fatigueCexReps) + 20/100 * max 0 (I_S fatigueCexReps))) * 100)) :=
  ⟨by norm_num [fatigueCexReps],
    (fatigue_score_level_spec fatigueCexReps (by norm_num [fatigueCexReps])).2.2.1⟩

lemma sumL_replicate (k : ℕ) (c : ℚ) : sumL (List.replicate k c) = k * c := by
  induction k with
  | zero => simp [sumL]
  | succ n ih =>
    rw [List.replicate_succ]
    simp only [sumL, List.foldr_cons] at ih ⊢
    rw [ih]
    push_cast
    ring

lemma meanL_replicate (k : ℕ) (c : ℚ) (hk : k ≠ 0) : meanL (List.replicate k c) = c := by
  rw [meanL, sumL_replicate, List.length_replicate, mul_comm, mul_div_assoc,
    div_self (by exact_mod_cast hk : (k : ℚ) ≠ 0), mul_one]

lemma varL_replicate (k : ℕ) (c : ℚ) : varL (List.replicate k c) = 0 := by
  rcases Nat.eq_zero_or_pos k with hk | hk
  · subst hk
    simp [varL, meanL, sumL]
  · rw [varL, List.map_replicate, meanL_replicate k c (by omega), sub_self]
    rw [show ((0 : ℚ) ^ 2) = 0 by norm_num, meanL, sumL_replicate, List.length_replicate]
    simp

/-- C9 (amended): each of the four consistency metrics is
`round(min(100, max(0, 100 − (std/mean)·333)), 1)` over all reps, the overall
`consistency_score` is the rounded mean of the four, a constant series with
*nonzero* value yields 100, and a zero-mean series (e.g. identically zero)
returns 0 through the `mean == 0` guard rather than dividing by zero. -/
theorem consistency_formula_spec (l : List RepMetrics) (h : 3 ≤ l.length) :
    (compute_fatigue_indicators l).rom_consistency = roundToR 1 (get_consistency (romsOf l)) ∧
    (compute_fatigue_indicators l).smoothness_consistency =
      roundToR 1 (get_consistency (l.map (·.smoothness_score))) ∧
    (compute_fatigue_indicators l).duration_consistency =
      roundToR 1 (get_consistency (l.map (·.duration_ms))) ∧
    (compute_fatigue_indicators l).peak_consistency =
      roundToR 1 (get_consistency (l.map (·.peak))) ∧
    (compute_fatigue_indicators l).consistency_score = roundToR 1
      ((get_consistency (romsOf l) + get_consistency (l.map (·.smoothness_score)) +
        get_consistency (l.map (·.duration_ms)) + get_consistency (l.map (·.peak))) / 4) ∧
    (∀ v : List ℚ, 2 ≤ v.length → meanL v ≠ 0 →
      get_consistency v =
        min 100 (max 0 (100 - Real.sqrt ((varL v : ℚ) : ℝ) / ((meanL v : ℚ) : ℝ) * 333))) ∧
    (∀ (c : ℚ) (k : ℕ), 2 ≤ k → c ≠ 0 → get_consistency (List.replicate k c) = 100) ∧
    (∀ v : List ℚ, meanL v = 0 → get_consistency v = 0) := by
  refine ⟨?_, ?_, ?_, ?_, ?_, ?_, ?_, ?_⟩
  · simp only [compute_fatigue_indicators, if_neg (not_lt.mpr h)]
  · simp only [compute_fatigue_indicators, if_neg (not_lt.mpr h)]
  · simp only [compute_fatigue_indicators, if_neg (not_lt.mpr h)]
  · simp only [compute_fatigue_indicators, if_neg (not_lt.mpr h)]
  · simp only [compute_fatigue_indicators, if_neg (not_lt.mpr h)]
  · intro v hlen hmean
    rw [get_consistency, if_neg (by push_neg; exact ⟨by omega, hmean⟩)]
  · intro c k hk hc
    have hmean : meanL (List.replicate k c) = c := meanL_replicate k c (by omega)
    have hvar : varL (List.replicate k c) = 0 := varL_replicate k c
    rw [get_consistency, if_neg (by
      push_neg
      refine ⟨by simpa using hk, by rw [hmean]; exact hc⟩)]
    rw [hvar]
    norm_num
  · intro v hv
    rw [get_consistency, if_pos (Or.inr hv)]

/-- Concrete all-default 3-rep session: every `peak` is 0. -/
def consistencyCexReps : List RepMetrics := [{}, {}, {}]

/-- C9 (counterexample): the peak series is the constant zero series (variance
0), yet the returned `peak_consistency` is 0, not 100 — the `mean == 0` guard
fires before the CV formula. -/
theorem consistency_zero_mean_cex :
    consistencyCexReps.map (·.peak) = [0, 0, 0] ∧
    varL (consistencyCexReps.map (·.peak)) = 0 ∧
    (compute_fatigue_indicators consistencyCexReps).peak_consistency = 0 ∧
    ((0 : ℝ) ≠ 100) := by
  have hmap : consistencyCexReps.map (·.peak) = [0, 0, 0] := rfl
  refine ⟨hmap, by rw [hmap]; norm_num [varL, meanL, sumL], ?_, by norm_num⟩
  have h3 : ¬(consistencyCexReps.length < 3) := by norm_num [consistencyCexReps]
  simp only [compute_fatigue_indicators, if_neg h3]
  rw [hmap, get_consistency, if_pos (Or.inr (by norm_num [meanL, sumL]))]
  simp [roundToR, rheIntR]

/-- Concrete 3-rep session with constant nonzero peaks for the C9 witness. -/
def consistencyWitnessReps : List RepMetrics := [{ peak := 5 }, { peak := 5 }, { peak := 5 }]

/-- C9 (witness for the amended theorem): a constant nonzero series scores 100. -/
theorem consistency_formula_spec_witness :
    ((2 : ℕ) ≤ 3 ∧ (5 : ℚ) ≠ 0) ∧ get_consistency (List.replicate 3 (5 : ℚ)) = 100 :=
  ⟨⟨by norm_num, by norm_num⟩,
    (consistency_formula_spec consistencyWitnessReps (by norm_num [consistencyWitnessReps])).2.2.2.2.2.2.1
      5 3 (by norm_num) (by norm_num)⟩

/-! ## Structural lemmas about the peak detector and the boundary pipeline -/

lemma argmaxGo_spec (xs : List ℚ) : ∀ (i b : ℕ) (v : ℚ),
    (argmaxGo xs i b v = b ∧ ∀ y ∈ xs, y ≤ v) ∨
    (∃ k, k < xs.length ∧ argmaxGo xs i b v = i + k ∧ v < xs.getD k 0 ∧
      ∀ y ∈ xs, y ≤ xs.getD k 0) := by
  induction xs with
  | nil => exact fun i b v => Or.inl ⟨rfl, by simp⟩
  | cons x xs ih =>
    intro i b v
    rw [argmaxGo]
    by_cases hx : v < x
    · rw [if_pos hx]
      rcases ih (i + 1) i x with ⟨heq, hall⟩ | ⟨k, hk, heq, hlt, hall⟩
      · refine Or.inr ⟨0, by simp, by omega, by simpa using hx, ?_⟩
        intro y hy
        rcases List.mem_cons.mp hy with rfl | hy
        · simp
        · simpa using (hall y hy).trans (by simp)
      · refine Or.inr ⟨k + 1, by simpa using hk, by omega, ?_, ?_⟩
        · simpa using hx.trans hlt
        · intro y hy
          rcases List.mem_cons.mp hy with rfl | hy
          · simpa using hlt.le
          · simpa using hall y hy
    · rw [if_neg hx]
      rcases ih (i + 1) b v with ⟨heq, hall⟩ | ⟨k, hk, heq, hlt, hall⟩
      · refine Or.inl ⟨heq, ?_⟩
        intro y hy
        rcases List.mem_cons.mp hy with rfl | hy
        · exact not_lt.mp hx
        · exact hall y hy
      · refine Or.inr ⟨k + 1, by simpa using hk, by omega, ?_, ?_⟩
        · simpa using hlt
        · intro y hy
          rcases List.mem_cons.mp hy with rfl | hy
          · simpa using (not_lt.mp hx).trans hlt.le
          · simpa using hall y hy

/-- `np.argmax` returns an in-range index of a maximal element. -/
lemma argmaxL_spec (l : List ℚ) (h : l ≠ []) :
    argmaxL l < l.length ∧ ∀ y ∈ l, y ≤ getQ l (argmaxL l) := by
  have hlen : 0 < l.length := List.length_pos.mpr h
  rcases argmaxGo_spec l 0 0 (getQ l 0) with ⟨heq, hall⟩ | ⟨k, hk, heq, _, hall⟩
  · rw [argmaxL, heq]
    exact ⟨hlen, hall⟩
  · rw [argmaxL, heq]
    refine ⟨by omega, ?_⟩
    intro y hy
    simpa [getQ] using hall y hy

lemma argminGo_spec (xs : List ℚ) : ∀ (i b : ℕ) (v : ℚ),
    (argminGo xs i b v = b ∧ ∀ y ∈ xs, v ≤ y) ∨
    (∃ k, k < xs.length ∧ argminGo xs i b v = i + k ∧ xs.getD k 0 < v ∧
      ∀ y ∈ xs, xs.getD k 0 ≤ y) := by
  induction xs with
  | nil => exact fun i b v => Or.inl ⟨rfl, by simp⟩
  | cons x xs ih =>
    intro i b v
    rw [argminGo]
    by_cases hx : x < v
    · rw [if_pos hx]
      rcases ih (i + 1) i x with ⟨heq, hall⟩ | ⟨k, hk, heq, hlt, hall⟩
      · refine Or.inr ⟨0, by simp, by omega, by simpa using hx, ?_⟩
        intro y hy
        rcases List.mem_cons.mp hy with rfl | hy
        · simp
        · simpa using le_trans (by simp) (hall y hy)
      · refine Or.inr ⟨k + 1, by simpa using hk, by omega, ?_, ?_⟩
        · simpa using hlt.trans hx
        · intro y hy
          rcases List.mem_cons.mp hy with rfl | hy
          · simpa using hlt.le
          · simpa using hall y hy
    · rw [if_neg hx]
      rcases ih (i + 1) b v with ⟨heq, hall⟩ | ⟨k, hk, heq, hlt, hall⟩
      · refine Or.inl ⟨heq, ?_⟩
        intro y hy
        rcases List.mem_cons.mp hy with rfl | hy
        · exact not_lt.mp hx
        · exact hall y hy
      · refine Or.inr ⟨k + 1, by simpa using hk, by omega, ?_, ?_⟩
        · simpa using hlt
        · intro y hy
          rcases List.mem_cons.mp hy with rfl | hy
          · simpa using hlt.le.trans (not_lt.mp hx)
          · simpa using hall y hy

/-- `np.argmin` returns an in-range index of a minimal element. -/
lemma argminL_spec (l : List ℚ) (h : l ≠ []) :
    argminL l < l.length ∧ ∀ y ∈ l, getQ l (argminL l) ≤ y := by
  have hlen : 0 < l.length := List.length_pos.mpr h
  rcases argminGo_spec l 0 0 (getQ l 0) with ⟨heq, hall⟩ | ⟨k, hk, heq, _, hall⟩
  · rw [argminL, heq]
    exact ⟨hlen, hall⟩
  · rw [argminL, heq]
    refine ⟨by omega, ?_⟩
    intro y hy
    simpa [getQ] using hall y hy

lemma plateauEnd_ge (x : List ℚ) (imax : ℕ) (xi : ℚ) :
    ∀ fuel ia, ia ≤ plateauEnd x imax xi fuel ia := by
  intro fuel
  induction fuel with
  | zero => intro ia; simp [plateauEnd]
  | succ n ih =>
    intro ia
    rw [plateauEnd]
    split
    · exact le_trans (by omega) (ih (ia + 1))
    · exact le_rfl

lemma plateauEnd_le (x : List ℚ) (imax : ℕ) (xi : ℚ) :
    ∀ fuel ia, ia ≤ imax → plateauEnd x imax xi fuel ia ≤ imax := by
  intro fuel
  induction fuel with
  | zero => intro ia h; simpa [plateauEnd] using h
  | succ n ih =>
    intro ia h
    rw [plateauEnd]
    split
    · exact ih (ia + 1) (by omega)
    · exact h

/-- Every index recorded by the scipy local-maxima scan lies in `[i, imax)`,
and the recorded list is strictly increasing. -/
lemma lmScan_spec (x : List ℚ) (imax : ℕ) :
    ∀ fuel i, 1 ≤ i →
      (∀ m ∈ lmScan x imax fuel i, i ≤ m ∧ m + 1 ≤ imax) ∧
      (lmScan x imax fuel i).Pairwise (· < ·) := by
  intro fuel
  induction fuel with
  | zero => intro i _; simp [lmScan]
  | succ n ih =>
    intro i hi
    rw [lmScan]
    by_cases h1 : i < imax
    · rw [if_pos h1]
      by_cases h2 : getQ x (i - 1) < getQ x i
      · rw [if_pos h2]
        set ia := plateauEnd x imax (getQ x i) x.length (i + 1) with hia
        have hge : i + 1 ≤ ia := plateauEnd_ge x imax (getQ x i) x.length (i + 1)
        have hle : ia ≤ imax := plateauEnd_le x imax (getQ x i) x.length (i + 1) (by omega)
        by_cases h3 : getQ x ia < getQ x i
        · rw [if_pos h3]
          have hmid1 : i ≤ (i + (ia - 1)) / 2 := by omega
          have hmid2 : (i + (ia - 1)) / 2 + 1 ≤ ia := by omega
          have hrec := ih (ia + 1) (by omega)
          constructor
          · intro m hm
            rcases List.mem_cons.mp hm with rfl | hm
            · exact ⟨hmid1, by omega⟩
            · have := (hrec.1 m hm)
              exact ⟨by omega, this.2⟩
          · refine List.pairwise_cons.mpr ⟨?_, hrec.2⟩
            intro m hm
            have := (hrec.1 m hm).1
            omega
        · rw [if_neg h3]
          refine ⟨fun m hm => ?_, (ih (i + 1) (by omega)).2⟩
          have := (ih (i + 1) (by omega)).1 m hm
          exact ⟨by omega, this.2⟩
      · rw [if_neg h2]
        refine ⟨fun m hm => ?_, (ih (i + 1) (by omega)).2⟩
        have := (ih (i + 1) (by omega)).1 m hm
        exact ⟨by omega, this.2⟩
    · rw [if_neg h1]
      simp

/-- Members of `localMaxima` are interior indices: `1 ≤ m` and `m + 2 ≤ len`. -/
lemma localMaxima_mem (x : List ℚ) (m : ℕ) (hm : m ∈ localMaxima x) :
    1 ≤ m ∧ m + 2 ≤ x.length := by
  have h := (lmScan_spec x (x.length - 1) x.length 1 le_rfl).1 m hm
  have hx : x.length ≠ 0 := by
    intro h0
    rw [localMaxima, h0] at hm
    simp [lmScan] at hm
  omega

lemma localMaxima_sorted (x : List ℚ) : (localMaxima x).Pairwise (· < ·) :=
  (lmScan_spec x (x.length - 1) x.length 1 le_rfl).2

lemma applyDistance_sublist (x : List ℚ) (peaks : List ℕ) (d : ℕ) :
    (applyDistance x peaks d).Sublist peaks := by
  unfold applyDistance
  have h1 : (peaks.enum.filter
      (fun p => (selectByPeakDistance peaks (peaks.map (getQ x)) d).getD p.1 false)).Sublist
      peaks.enum := List.filter_sublist _
  simpa [List.enum_map_snd] using h1.map Prod.snd

lemma findPeaksDistProm_sublist (x : List ℚ) (d : ℕ) (prom : ℚ) :
    (findPeaksDistProm x d prom).Sublist (localMaxima x) :=
  (List.filter_sublist _).trans (applyDistance_sublist x (localMaxima x) d)

lemma findPeaksDistProm_mem (x : List ℚ) (d : ℕ) (prom : ℚ) (q : ℕ)
    (hq : q ∈ findPeaksDistProm x d prom) : 1 ≤ q ∧ q + 2 ≤ x.length :=
  localMaxima_mem x q ((findPeaksDistProm_sublist x d prom).mem hq)

lemma findPeaksDistProm_sorted (x : List ℚ) (d : ℕ) (prom : ℚ) :
    (findPeaksDistProm x d prom).Pairwise (· < ·) :=
  (localMaxima_sorted x).sublist (findPeaksDistProm_sublist x d prom)

lemma negL_length (x : List ℚ) : (negL x).length = x.length := by
  simp [negL]

lemma find_valleys_mem (x : List ℚ) (d : ℕ) (prom : ℚ) (q : ℕ)
    (hq : q ∈ find_valleys x d prom) : 1 ≤ q ∧ q + 2 ≤ x.length := by
  have := findPeaksDistProm_mem (negL x) d prom q hq
  rwa [negL_length] at this

lemma find_valleys_sorted (x : List ℚ) (d : ℕ) (prom : ℚ) :
    (find_valleys x d prom).Pairwise (· < ·) :=
  findPeaksDistProm_sorted (negL x) d prom

/-- Candidates of the full retry/peak ladder are interior, sorted indices. -/
lemma candidateLadder_mem (smooth : List ℚ) (d : ℕ) (prom : ℚ) (q : ℕ)
    (hq : q ∈ (candidateLadder smooth d prom).1) : 1 ≤ q ∧ q + 2 ≤ smooth.length := by
  simp only [candidateLadder, retryLoop] at hq
  repeat' split at hq
  all_goals first
    | exact find_valleys_mem smooth _ _ q hq
    | exact findPeaksDistProm_mem smooth _ _ q hq

lemma candidateLadder_sorted (smooth : List ℚ) (d : ℕ) (prom : ℚ) :
    (candidateLadder smooth d prom).1.Pairwise (· < ·) := by
  simp only [candidateLadder, retryLoop]
  repeat' split
  all_goals first
    | exact find_valleys_sorted smooth _ _
    | exact findPeaksDistProm_sorted smooth _ _

lemma getLast?_eq_getLastD (l : List ℕ) (h : l ≠ []) : l.getLast? = some (l.getLastD 0) := by
  obtain ⟨v, hv⟩ := Option.isSome_iff_exists.mp (List.getLast?_isSome.mpr h)
  rw [List.getLastD_eq_getLast?, hv]
  rfl

/-- In a strictly increasing list every element is at most the last one. -/
lemma pairwise_le_getLastD (l : List ℕ) (hl : l.Pairwise (· < ·)) :
    ∀ a ∈ l, a ≤ l.getLastD 0 := by
  induction l with
  | nil => simp
  | cons x xs ih =>
    intro a ha
    cases xs with
    | nil =>
      rw [List.mem_singleton] at ha
      simp [ha]
    | cons y ys =>
      have hlast : ((x :: y :: ys).getLastD 0) = (y :: ys).getLastD 0 := by
        rw [List.getLastD_eq_getLast?, List.getLastD_eq_getLast?, List.getLast?_cons_cons]
      rcases List.mem_cons.mp ha with rfl | ha
      · rw [hlast]
        have hne : (y :: ys) ≠ [] := by simp
        have hmem : (y :: ys).getLastD 0 ∈ y :: ys := by
          rw [List.getLastD_eq_getLast?, List.getLast?_eq_getLast _ hne]
          exact List.getLast_mem hne
        exact le_of_lt ((List.pairwise_cons.mp hl).1 _ hmem)
      · rw [hlast]
        exact ih (List.pairwise_cons.mp hl).2 a ha

/-- Invariants of the duration-filter fold: nonempty, head preserved, strictly
increasing, and every element comes from the accumulator or the candidates. -/
lemma foldl_durStep_facts (ts : List ℚ) (minD maxD : ℚ) :
    ∀ (cand acc : List ℕ), acc ≠ [] → acc.Pairwise (· < ·) →
      (∀ c ∈ cand, acc.getLastD 0 < c) → cand.Pairwise (· < ·) →
      (cand.foldl (durStep ts minD maxD) acc) ≠ [] ∧
      (cand.foldl (durStep ts minD maxD) acc).head? = acc.head? ∧
      (cand.foldl (durStep ts minD maxD) acc).Pairwise (· < ·) ∧
      ∀ a ∈ cand.foldl (durStep ts minD maxD) acc, a ∈ acc ∨ a ∈ cand := by
  intro cand
  induction cand with
  | nil => exact fun acc h1 h2 _ _ => ⟨h1, rfl, h2, fun a ha => Or.inl ha⟩
  | cons c rest ih =>
    intro acc h1 h2 h3 h4
    rw [List.foldl_cons]
    by_cases hc : minD ≤ getQ ts c - getQ ts (acc.getLastD 0) ∧
        getQ ts c - getQ ts (acc.getLastD 0) ≤ maxD
    · have hstep : durStep ts minD maxD acc c = acc ++ [c] := by rw [durStep, if_pos hc]
      rw [hstep]
      have hlast : (acc ++ [c]).getLastD 0 = c := by
        rw [List.getLastD_eq_getLast?, List.getLast?_append]
        rfl
      have h2' : (acc ++ [c]).Pairwise (· < ·) := by
        rw [List.pairwise_append]
        refine ⟨h2, by simp, fun a ha b hb => ?_⟩
        rw [List.mem_singleton] at hb
        subst hb
        exact lt_of_le_of_lt (pairwise_le_getLastD acc h2 a ha) (h3 _ (by simp))
      have h3' : ∀ r ∈ rest, (acc ++ [c]).getLastD 0 < r := by
        rw [hlast]
        exact fun r hr => (List.pairwise_cons.mp h4).1 r hr
      have hres := ih (acc ++ [c]) (by simp) h2' h3' (List.pairwise_cons.mp h4).2
      refine ⟨hres.1, ?_, hres.2.2.1, ?_⟩
      · rw [hres.2.1]
        cases acc with
        | nil => exact absurd rfl h1
        | cons a as => simp
      · intro a ha
        rcases hres.2.2.2 a ha with hmem | hmem
        · rcases List.mem_append.mp hmem with h | h
          · exact Or.inl h
          · rw [List.mem_singleton] at h
            exact Or.inr (by simp [h])
        · exact Or.inr (by simp [hmem])
    · have hstep : durStep ts minD maxD acc c = acc := by rw [durStep, if_neg hc]
      rw [hstep]
      have hres := ih acc h1 h2 (fun r hr => h3 r (by simp [hr])) (List.pairwise_cons.mp h4).2
      exact ⟨hres.1, hres.2.1, hres.2.2.1,
        fun a ha => (hres.2.2.2 a ha).imp id (fun h => by simp [h])⟩

/-- The duration filter produces a nonempty, strictly increasing boundary list
headed by 0 whose members are 0 or candidates. -/
lemma durationFilter_facts (ts : List ℚ) (minD maxD : ℚ) (cand : List ℕ)
    (hc1 : ∀ c ∈ cand, 0 < c) (hc2 : cand.Pairwise (· < ·)) :
    durationFilter ts minD maxD cand ≠ [] ∧
    (durationFilter ts minD maxD cand).head? = some 0 ∧
    (durationFilter ts minD maxD cand).Pairwise (· < ·) ∧
    ∀ a ∈ durationFilter ts minD maxD cand, a = 0 ∨ a ∈ cand := by
  have h := foldl_durStep_facts ts minD maxD cand [0] (by simp) (by simp)
    (by simpa using hc1) hc2
  exact ⟨h.1, h.2.1, h.2.2.1, fun a ha => (h.2.2.2 a ha).imp (by simp) id⟩

/-- The duration filter's accepted boundaries are consecutively
duration-consistent (this is claim C4's amended content). -/
lemma foldl_durStep_chain (ts : List ℚ) (minD maxD : ℚ) :
    ∀ (cand acc : List ℕ), acc ≠ [] →
      acc.Chain' (fun a b => minD ≤ getQ ts b - getQ ts a ∧ getQ ts b - getQ ts a ≤ maxD) →
      (cand.foldl (durStep ts minD maxD) acc).Chain'
        (fun a b => minD ≤ getQ ts b - getQ ts a ∧ getQ ts b - getQ ts a ≤ maxD) := by
  intro cand
  induction cand with
  | nil => exact fun acc _ h => h
  | cons c rest ih =>
    intro acc h1 h2
    rw [List.foldl_cons]
    by_cases hc : minD ≤ getQ ts c - getQ ts (acc.getLastD 0) ∧
        getQ ts c - getQ ts (acc.getLastD 0) ≤ maxD
    · have hstep : durStep ts minD maxD acc c = acc ++ [c] := by rw [durStep, if_pos hc]
      rw [hstep]
      refine ih (acc ++ [c]) (by simp) ?_
      rw [List.chain'_append]
      refine ⟨h2, List.chain'_singleton c, fun x hx y hy => ?_⟩
      rw [getLast?_eq_getLastD acc h1] at hx
      simp only [List.head?_cons, Option.mem_def, Option.some.injEq] at hx hy
      subst hx
      subst hy
      exact hc
    · have hstep : durStep ts minD maxD acc c = acc := by rw [durStep, if_neg hc]
      rw [hstep]
      exact ih acc h1 h2

/-- Appending one element strictly beyond the last preserves the invariants. -/
lemma append_beyond_last (l : List ℕ) (v : ℕ) (h1 : l ≠ []) (h2 : l.Pairwise (· < ·))
    (hv : l.getLastD 0 < v) :
    (l ++ [v]) ≠ [] ∧ (l ++ [v]).head? = l.head? ∧ (l ++ [v]).Pairwise (· < ·) := by
  refine ⟨by simp, ?_, ?_⟩
  · cases l with
    | nil => exact absurd rfl h1
    | cons a as => simp
  · rw [List.pairwise_append]
    refine ⟨h2, by simp, fun a ha b hb => ?_⟩
    rw [List.mem_singleton] at hb
    subst hb
    exact lt_of_le_of_lt (pairwise_le_getLastD l h2 a ha) hv

/-- Tail handling preserves the boundary-list invariants; any new element is an
interior index of the smoothed signal beyond the previous last boundary. -/
lemma tailExtend_facts (smooth ts : List ℚ) (d : ℕ) (effProm minD : ℚ) (n : ℕ)
    (valid : List ℕ) (h1 : valid ≠ []) (h2 : valid.Pairwise (· < ·)) :
    tailExtend smooth ts d effProm minD n valid ≠ [] ∧
    (tailExtend smooth ts d effProm minD n valid).head? = valid.head? ∧
    (tailExtend smooth ts d effProm minD n valid).Pairwise (· < ·) ∧
    ∀ a ∈ tailExtend smooth ts d effProm minD n valid, a ∈ valid ∨ a + 2 ≤ smooth.length := by
  simp only [tailExtend]
  split
  · split
    · split
      · split
        · rename_i j hj
          have hjmem : j ∈ find_valleys (smooth.drop (valid.getLastD 0)) (d / 2)
              (effProm * (1/2)) := by
            have := List.getLast?_eq_getLast (l := find_valleys
              (smooth.drop (valid.getLastD 0)) (d / 2) (effProm * (1/2)))
            rcases hl : find_valleys (smooth.drop (valid.getLastD 0)) (d / 2)
                (effProm * (1/2)) with _ | ⟨x, xs⟩
            · rw [hl] at hj
              simp at hj
            · rw [hl] at hj
              have := List.mem_of_mem_getLast? (l := x :: xs) (a := j) hj
              exact hl ▸ this
          have hbound := find_valleys_mem _ _ _ j hjmem
          rw [List.length_drop] at hbound
          have happ := append_beyond_last valid (valid.getLastD 0 + j) h1 h2 (by omega)
          refine ⟨happ.1, happ.2.1, happ.2.2, fun a ha => ?_⟩
          rcases List.mem_append.mp ha with h | h
          · exact Or.inl h
          · rw [List.mem_singleton] at h
            subst h
            exact Or.inr (by omega)
        · exact ⟨h1, rfl, h2, fun a ha => Or.inl ha⟩
      · exact ⟨h1, rfl, h2, fun a ha => Or.inl ha⟩
    · exact ⟨h1, rfl, h2, fun a ha => Or.inl ha⟩
  · exact ⟨h1, rfl, h2, fun a ha => Or.inl ha⟩

/-- Invariants of the guided-fallback fold: nonempty, head preserved, strictly
increasing, and every element is at most `n - 1`. -/
lemma foldl_guidedStep_facts (smooth : List ℚ) (repCol : List ℕ) (n : ℕ) :
    ∀ (reps valid : List ℕ), valid ≠ [] → valid.Pairwise (· < ·) →
      (∀ a ∈ valid, a ≤ n - 1) →
      (reps.foldl (guidedStep smooth repCol n) valid) ≠ [] ∧
      (reps.foldl (guidedStep smooth repCol n) valid).head? = valid.head? ∧
      (reps.foldl (guidedStep smooth repCol n) valid).Pairwise (· < ·) ∧
      ∀ a ∈ reps.foldl (guidedStep smooth repCol n) valid, a ≤ n - 1 := by
  intro reps
  induction reps with
  | nil => exact fun valid h1 h2 h3 => ⟨h1, rfl, h2, h3⟩
  | cons r rest ih =>
    intro valid h1 h2 h3
    rw [List.foldl_cons]
    have hstep : ∀ (res : List ℕ), guidedStep smooth repCol n valid r = res →
        (res ≠ [] ∧ res.head? = valid.head? ∧ res.Pairwise (· < ·) ∧
         ∀ a ∈ res, a ≤ n - 1) := by
      intro res hres
      simp only [guidedStep] at hres
      split at hres
      · exact hres ▸ ⟨h1, rfl, h2, h3⟩
      · split at hres
        · split at hres
          · rename_i hseg hlt
            set ir := (List.range repCol.length).filter (fun i => repCol.getD i 0 == r) with hir
            set re := ir.getLastD 0 with hre
            set w := max ((re - ir.headD 0) / 5) 10 with hw
            set ss := re - w with hss
            set se := min n (re + w) with hse
            set seg := (smooth.drop ss).take (se - ss) with hseg2
            have hsegne : seg ≠ [] := by
              intro hemp
              rw [hemp] at hseg
              simp at hseg
            have hargmin := argminL_spec seg hsegne
            have hlen : seg.length ≤ se - ss := by
              rw [hseg2]
              simp [List.length_take]
            have hvi : ss + argminL seg ≤ n - 1 := by
              have h4 : se ≤ n := by omega
              omega
            have happ := append_beyond_last valid (ss + argminL seg) h1 h2 hlt
            rw [← hres]
            refine ⟨happ.1, happ.2.1, happ.2.2, fun a ha => ?_⟩
            rcases List.mem_append.mp ha with h | h
            · exact h3 a h
            · rw [List.mem_singleton] at h
              subst h
              exact hvi
          · exact hres ▸ ⟨h1, rfl, h2, h3⟩
        · exact hres ▸ ⟨h1, rfl, h2, h3⟩
    have hres := hstep (guidedStep smooth repCol n valid r) rfl
    have := ih (guidedStep smooth repCol n valid r) hres.1 hres.2.2.1 hres.2.2.2
    exact ⟨this.1, by rw [this.2.1, hres.2.1], this.2.2.1, this.2.2.2⟩

/-- The guided fallback produces a nonempty, strictly increasing boundary list
headed by 0 with members bounded by `n - 1`. -/
lemma guidedFor_facts (smooth : List ℚ) (repCol : List ℕ) (n : ℕ) :
    guidedFor smooth repCol n ≠ [] ∧
    (guidedFor smooth repCol n).head? = some 0 ∧
    (guidedFor smooth repCol n).Pairwise (· < ·) ∧
    ∀ a ∈ guidedFor smooth repCol n, a ≤ n - 1 := by
  rw [guidedFor]
  have hbase := foldl_guidedStep_facts smooth repCol n (originalRepsOf (some repCol)) [0]
    (by simp) (by simp) (by simp)
  split
  · rename_i hlt
    have happ := append_beyond_last _ (n - 1) hbase.1 hbase.2.2.1 hlt
    refine ⟨happ.1, by rw [happ.2.1, hbase.2.1]; rfl, happ.2.2, fun a ha => ?_⟩
    rcases List.mem_append.mp ha with h | h
    · exact hbase.2.2.2 a h
    · rw [List.mem_singleton] at h
      omega
  · exact ⟨hbase.1, by rw [hbase.2.1]; rfl, hbase.2.2.1, hbase.2.2.2⟩

lemma smoothSignal_length (sg : List ℚ → List ℚ) (signal : List ℚ)
    (hsg : (sg signal).length = signal.length) :
    (smoothSignal sg signal).length = signal.length := by
  rw [smoothSignal]
  split
  · exact hsg
  · rfl

/-- Master invariant of the boundary pipeline: the accepted boundary list is
nonempty, starts at 0, is strictly increasing, and stays within `[0, n-1]`. -/
lemma validBoundaries_facts (sg : List ℚ → List ℚ) (sqrtQ : ℚ → ℚ) (df : SessionDF)
    (minD maxD : ℚ) (hsg : (sg df.signal).length = df.signal.length) :
    validBoundaries sg sqrtQ df minD maxD ≠ [] ∧
    (validBoundaries sg sqrtQ df minD maxD).head? = some 0 ∧
    (validBoundaries sg sqrtQ df minD maxD).Pairwise (· < ·) ∧
    ∀ a ∈ validBoundaries sg sqrtQ df minD maxD, a ≤ df.signal.length - 1 := by
  have hslen := smoothSignal_length sg df.signal hsg
  rw [validBoundaries]
  set smooth := smoothSignal sg df.signal with hsmooth
  set cp := candidateLadder smooth (minDistOf df.timestamp_ms)
    (minPromOf sqrtQ smooth) with hcp
  have hcand1 : ∀ c ∈ cp.1, 0 < c := fun c hc => (candidateLadder_mem _ _ _ c hc).1
  have hcand2 : cp.1.Pairwise (· < ·) := candidateLadder_sorted _ _ _
  have hdf := durationFilter_facts df.timestamp_ms minD maxD cp.1 hcand1 hcand2
  set v1 := durationFilter df.timestamp_ms minD maxD cp.1 with hv1
  have hte := tailExtend_facts smooth df.timestamp_ms (minDistOf df.timestamp_ms) cp.2 minD
    df.signal.length v1 hdf.1 hdf.2.2.1
  set v2 := tailExtend smooth df.timestamp_ms (minDistOf df.timestamp_ms) cp.2 minD
    df.signal.length v1 with hv2
  split
  · exact guidedFor_facts smooth (df.rep.getD []) df.signal.length
  · refine ⟨hte.1, by rw [hte.2.1, hdf.2.1], hte.2.2.1, fun a ha => ?_⟩
    rcases hte.2.2.2 a ha with h | h
    · rcases hdf.2.2.2 a h with rfl | h
      · omega
      · have := candidateLadder_mem _ _ _ a h
        omega
    · omega

/-! ## Claim C4: duration bounds -/

/-- C4 (amended): consecutive boundaries accepted by the duration filter lie
between `min_rep_duration_ms` and `max_rep_duration_ms` apart, measured
boundary to boundary.  The *recorded* `duration_ms` of a rep runs only to the
sample before the next boundary and can fall below the minimum, and the final
tail rep is never duration-checked (see the counterexample). -/
theorem duration_filter_chain_spec (ts : List ℚ) (minD maxD : ℚ) (cand : List ℕ) :
    (durationFilter ts minD maxD cand).Chain'
      (fun a b => minD ≤ getQ ts b - getQ ts a ∧ getQ ts b - getQ ts a ≤ maxD) :=
  foldl_durStep_chain ts minD maxD cand [0] (by simp) (by simp)

/-- Timestamps of the 11-sample counterexample session (100 ms apart). -/
def durCexTs : List ℚ := [0, 100, 200, 300, 400, 500, 600, 700, 800, 900, 1000]

/-- Signal of the counterexample session: flat at 3 with a sharp valley at
index 8 (800 ms). -/
def durCexSig : List ℚ := [3, 3, 3, 3, 3, 3, 3, 3, 0, 3, 3]

/-- The counterexample dataframe (no `source_file`; the `rep` column is
present — line 543 copies it unconditionally — but holds no positive label,
so the guided fallback stays off). -/
def durationCexDF : SessionDF := ⟨durCexTs, durCexSig, some (List.replicate 11 0)⟩

/-- `np.std` of the counterexample signal: the float value of
`sqrt(90/121) ≈ 0.86243` rounded to `0.8624`; the trace below is unchanged for
any value of `sqrtQ (90/121)` in `[0, 6]`. -/
def durationCexSqrt : ℚ → ℚ := fun v => if v = 90/121 then 539/625 else 0

lemma durCex_smooth : smoothSignal (fun l => l) durCexSig = durCexSig := by
  norm_num [smoothSignal, durCexSig]

lemma durCex_var : varL durCexSig = 90/121 := by
  norm_num [durCexSig, varL, meanL, sumL]

lemma durCex_prom : minPromOf durationCexSqrt durCexSig = 539/1250 := by
  have hmax : maxL durCexSig = 3 := by norm_num [durCexSig, maxL, max_def]
  have hmin : minL durCexSig = 0 := by norm_num [durCexSig, minL, min_def]
  rw [minPromOf, hmax, hmin, durCex_var]
  norm_num [durationCexSqrt, max_def]

lemma durCex_dist : minDistOf durCexTs = 5 := by
  norm_num [minDistOf, durCexTs, diffL, medianL, sortQ, insSorted, truncQ, getQ,
    Rat.num_ofNat, Rat.den_ofNat]
  decide

lemma durCex_lm : localMaxima (negL durCexSig) = [8] := by decide

lemma durCex_lm2 : localMaxima durCexSig = [] := by decide

lemma durCex_ad : applyDistance (negL durCexSig) [8] 5 = [8] := by decide

lemma durCex_promAt : prominenceAt (negL durCexSig) 8 = 3 := by
  norm_num [prominenceAt, leftMinFrom, rightMinFrom, negL, durCexSig, getQ, min_def, max_def]

lemma durCex_fv (p : ℚ) (hp : p ≤ 3) : find_valleys durCexSig 5 p = [8] := by
  rw [find_valleys, findPeaksDistProm, durCex_lm, durCex_ad]
  simp [List.filter_cons, durCex_promAt, hp]

lemma durCex_pk : findPeaksDistProm durCexSig 5 (539/1250 * (1/2)) = [] := by
  rw [findPeaksDistProm, durCex_lm2]
  rfl

lemma durCex_ladder : candidateLadder durCexSig 5 (539/1250) = ([8], 539/1250) := by
  have h0 := durCex_fv (539/1250) (by norm_num)
  have h1 := durCex_fv (539/1250 * (1/2)) (by norm_num)
  have h2 := durCex_fv (539/1250 * (1/4)) (by norm_num)
  have h3 := durCex_fv (539/1250 * (1/10)) (by norm_num)
  simp only [candidateLadder, retryLoop, h0, h1, h2, h3, durCex_pk]
  norm_num

lemma durCex_df : durationFilter durCexTs 800 8000 [8] = [0, 8] := by
  norm_num [durationFilter, durStep, durCexTs, getQ]

lemma durCex_te :
    tailExtend durCexSig durCexTs 5 (539/1250) 800 11 [0, 8] = [0, 8] := by
  norm_num [tailExtend, durCexTs, getQ]

lemma durCex_vb :
    validBoundaries (fun l => l) durationCexSqrt durationCexDF 800 8000 = [0, 8] := by
  simp only [validBoundaries, durationCexDF]
  rw [durCex_smooth, durCex_dist, durCex_prom, durCex_ladder]
  simp only [show durCexSig.length = 11 from rfl]
  norm_num [durCex_df, durCex_te, originalRepsOf]

/-! ## Rep-segment structure: lemmas for claims C5 and C7 -/

lemma getLastD_cons_cons (a b : ℕ) (t : List ℕ) :
    ((a :: b :: t).getLastD 0) = (b :: t).getLastD 0 := by
  rw [List.getLastD_eq_getLast?, List.getLastD_eq_getLast?, List.getLast?_cons_cons]

lemma headD_of_head? (vs : List ℕ) (h : vs.head? = some 0) : vs.headD 0 = 0 := by
  cases vs with
  | nil => simp at h
  | cons a t =>
    simp only [List.head?_cons, Option.some.injEq] at h
    simp [h]

lemma pairwise_getD_lt (vs : List ℕ) (h : vs.Pairwise (· < ·)) (i j : ℕ) (hij : i < j)
    (hj : j < vs.length) : vs.getD i 0 < vs.getD j 0 := by
  have hi : i < vs.length := by omega
  rw [List.getD_eq_getElem vs 0 hi, List.getD_eq_getElem vs 0 hj]
  exact List.pairwise_iff_get.mp h ⟨i, hi⟩ ⟨j, hj⟩ hij

lemma pairwise_getD_le (vs : List ℕ) (h : vs.Pairwise (· < ·)) (i j : ℕ) (hij : i ≤ j)
    (hj : j < vs.length) : vs.getD i 0 ≤ vs.getD j 0 := by
  rcases Nat.eq_or_lt_of_le hij with rfl | hlt
  · exact le_rfl
  · exact (pairwise_getD_lt vs h i j hlt hj).le

lemma getLastD_eq_getD_last (vs : List ℕ) (h : vs ≠ []) :
    vs.getLastD 0 = vs.getD (vs.length - 1) 0 := by
  induction vs with
  | nil => exact absurd rfl h
  | cons a t ih =>
    cases t with
    | nil => simp
    | cons b t2 =>
      rw [getLastD_cons_cons, ih (by simp)]
      have hlen : (a :: b :: t2).length - 1 = ((b :: t2).length - 1) + 1 := by
        simp
      rw [hlen, List.getD_cons_succ]

/-- A boundary `i` with `head ≤ i` falls between two consecutive boundaries or
beyond the last one. -/
lemma sorted_locate : ∀ (vs : List ℕ), vs.Pairwise (· < ·) → ∀ i : ℕ, vs ≠ [] →
    vs.headD 0 ≤ i →
    (∃ j, j + 1 < vs.length ∧ vs.getD j 0 ≤ i ∧ i < vs.getD (j + 1) 0) ∨
    vs.getLastD 0 ≤ i := by
  intro vs
  induction vs with
  | nil => intro _ i h; exact absurd rfl h
  | cons a rest ih =>
    intro hp i _ hhead
    cases rest with
    | nil =>
      right
      simpa using hhead
    | cons b t =>
      by_cases hib : i < b
      · refine Or.inl ⟨0, by simp, by simpa using hhead, by simpa using hib⟩
      · have hble : b ≤ i := not_lt.mp hib
        have hrec := ih (List.pairwise_cons.mp hp).2 i (by simp) (by simpa using hble)
        rcases hrec with ⟨j, hj1, hj2, hj3⟩ | hlast
        · refine Or.inl ⟨j + 1, by simpa using hj1, ?_, ?_⟩
          · rwa [List.getD_cons_succ]
          · rwa [List.getD_cons_succ]
        · right
          rwa [getLastD_cons_cons]

/-- Membership characterization of the produced rep list. -/
lemma buildRepInfos_mem (smooth signal ts : List ℚ) (n : ℕ) (vs : List ℕ) (f : RepInfo) :
    f ∈ buildRepInfos smooth signal ts n vs ↔
      (∃ j, j < vs.length - 1 ∧ f = mainRepInfo smooth signal ts vs j) ∨
      (vs.getLastD 0 < n - 1 ∧ f = tailRepInfo smooth signal ts n vs) := by
  rw [buildRepInfos]
  split
  · rename_i hlt
    simp only [List.mem_append, List.mem_map, List.mem_range, List.mem_singleton]
    constructor
    · rintro (⟨j, hj, rfl⟩ | rfl)
      · exact Or.inl ⟨j, hj, rfl⟩
      · exact Or.inr ⟨hlt, rfl⟩
    · rintro (⟨j, hj, rfl⟩ | ⟨_, rfl⟩)
      · exact Or.inl ⟨j, hj, rfl⟩
      · exact Or.inr rfl
  · rename_i hge
    simp only [List.mem_map, List.mem_range]
    constructor
    · rintro ⟨j, hj, rfl⟩
      exact Or.inl ⟨j, hj, rfl⟩
    · rintro (⟨j, hj, rfl⟩ | ⟨hlt, rfl⟩)
      · exact ⟨j, hj, rfl⟩
      · exact absurd hlt hge

/-- Every sample strictly before the final index is covered by some rep. -/
lemma buildRepInfos_exists (smooth signal ts : List ℚ) (n : ℕ) (vs : List ℕ)
    (h1 : vs ≠ []) (h2 : vs.head? = some 0) (h3 : vs.Pairwise (· < ·))
    (i : ℕ) (hi : i + 1 < n) :
    ∃ f ∈ buildRepInfos smooth signal ts n vs, f.start_idx ≤ i ∧ i ≤ f.end_idx := by
  have hhead : vs.headD 0 = 0 := headD_of_head? vs h2
  rcases sorted_locate vs h3 i h1 (by omega) with ⟨j, hj1, hj2, hj3⟩ | hlast
  · refine ⟨mainRepInfo smooth signal ts vs j,
      (buildRepInfos_mem smooth signal ts n vs _).mpr (Or.inl ⟨j, by omega, rfl⟩), ?_, ?_⟩
    · exact hj2
    · show i ≤ vs.getD (j + 1) 0 - 1
      omega
  · have hlt : vs.getLastD 0 < n - 1 := by omega
    refine ⟨tailRepInfo smooth signal ts n vs,
      (buildRepInfos_mem smooth signal ts n vs _).mpr (Or.inr ⟨hlt, rfl⟩), hlast, by
        show i ≤ n - 1
        omega⟩

/-- The final sample is covered when the last boundary lies before it. -/
lemma buildRepInfos_exists_last (smooth signal ts : List ℚ) (n : ℕ) (vs : List ℕ)
    (hlt : vs.getLastD 0 < n - 1) :
    ∃ f ∈ buildRepInfos smooth signal ts n vs, f.start_idx ≤ n - 1 ∧ n - 1 ≤ f.end_idx :=
  ⟨tailRepInfo smooth signal ts n vs,
    (buildRepInfos_mem smooth signal ts n vs _).mpr (Or.inr ⟨hlt, rfl⟩), by
      show vs.getLastD 0 ≤ n - 1
      omega, le_rfl⟩

/-- Two distinct produced reps occupy disjoint index ranges. -/
lemma buildRepInfos_disjoint (smooth signal ts : List ℚ) (n : ℕ) (vs : List ℕ)
    (h1 : vs ≠ []) (h3 : vs.Pairwise (· < ·)) (f : RepInfo)
    (hf : f ∈ buildRepInfos smooth signal ts n vs) (g : RepInfo)
    (hg : g ∈ buildRepInfos smooth signal ts n vs) (hfg : f ≠ g) :
    f.end_idx < g.start_idx ∨ g.end_idx < f.start_idx := by
  have hmain_lt : ∀ j k, j < k → k < vs.length - 1 →
      (mainRepInfo smooth signal ts vs j).end_idx <
      (mainRepInfo smooth signal ts vs k).start_idx := by
    intro j k hjk hk
    show vs.getD (j + 1) 0 - 1 < vs.getD k 0
    have h01 : vs.getD j 0 < vs.getD (j + 1) 0 :=
      pairwise_getD_lt vs h3 j (j + 1) (by omega) (by omega)
    have h02 : vs.getD (j + 1) 0 ≤ vs.getD k 0 :=
      pairwise_getD_le vs h3 (j + 1) k (by omega) (by omega)
    omega
  have hmain_tail : ∀ j, j < vs.length - 1 → vs.getLastD 0 < n - 1 →
      (mainRepInfo smooth signal ts vs j).end_idx <
      (tailRepInfo smooth signal ts n vs).start_idx := by
    intro j hj _
    show vs.getD (j + 1) 0 - 1 < vs.getLastD 0
    rw [getLastD_eq_getD_last vs h1]
    have h01 : vs.getD j 0 < vs.getD (j + 1) 0 :=
      pairwise_getD_lt vs h3 j (j + 1) (by omega) (by omega)
    have h02 : vs.getD (j + 1) 0 ≤ vs.getD (vs.length - 1) 0 :=
      pairwise_getD_le vs h3 (j + 1) (vs.length - 1) (by omega) (by omega)
    omega
  rcases (buildRepInfos_mem smooth signal ts n vs f).mp hf with ⟨j, hj, rfl⟩ | ⟨hlt, rfl⟩ <;>
    rcases (buildRepInfos_mem smooth signal ts n vs g).mp hg with ⟨k, hk, rfl⟩ | ⟨hlt2, rfl⟩
  · rcases Nat.lt_trichotomy j k with h | h | h
    · exact Or.inl (hmain_lt j k h hk)
    · exact absurd (by rw [h]) hfg
    · exact Or.inr (hmain_lt k j h hj)
  · exact Or.inl (hmain_tail j hj hlt2)
  · exact Or.inr (hmain_tail k hk hlt)
  · exact absurd rfl hfg

/-- The produced rep numbers are `1, 2, …, len` in order. -/
lemma buildRepInfos_repmap (smooth signal ts : List ℚ) (n : ℕ) (vs : List ℕ) (h1 : vs ≠ []) :
    (buildRepInfos smooth signal ts n vs).map (·.rep) =
      List.range' 1 (buildRepInfos smooth signal ts n vs).length := by
  have hmains : ((List.range (vs.length - 1)).map (mainRepInfo smooth signal ts vs)).map
      (·.rep) = List.range' 1 (vs.length - 1) := by
    rw [List.map_map]
    have : ((·.rep) ∘ mainRepInfo smooth signal ts vs) = fun j => 1 + j := by
      funext j
      show j + 1 = 1 + j
      omega
    rw [this, ← List.range'_eq_map_range]
  rw [buildRepInfos]
  split
  · rename_i hlt
    rw [List.map_append, hmains]
    have hrep : (tailRepInfo smooth signal ts n vs).rep = vs.length := rfl
    simp only [List.map_cons, List.map_nil, hrep]
    rw [List.length_append]
    simp only [List.length_map, List.length_range, List.length_cons, List.length_nil]
    have hlen : vs.length - 1 + 1 = vs.length := by
      have : 0 < vs.length := List.length_pos.mpr h1
      omega
    rw [show vs.length - 1 + (0 + 1) = vs.length - 1 + 1 by omega, hlen]
    rw [← hlen, List.range'_concat]
    have hpos : 0 < vs.length := List.length_pos.mpr h1
    congr 1
    simp only [List.cons.injEq, and_true]
    omega
  · rw [hmains]
    simp

/-- Two produced reps covering the same sample index are equal. -/
lemma buildRepInfos_unique (smooth signal ts : List ℚ) (n : ℕ) (vs : List ℕ)
    (h1 : vs ≠ []) (h3 : vs.Pairwise (· < ·)) (i : ℕ) (f : RepInfo)
    (hf : f ∈ buildRepInfos smooth signal ts n vs)
    (hfc : f.start_idx ≤ i ∧ i ≤ f.end_idx) (g : RepInfo)
    (hg : g ∈ buildRepInfos smooth signal ts n vs)
    (hgc : g.start_idx ≤ i ∧ i ≤ g.end_idx) : f = g := by
  obtain ⟨hf1, hf2⟩ := hfc
  obtain ⟨hg1, hg2⟩ := hgc
  by_contra hne
  rcases buildRepInfos_disjoint smooth signal ts n vs h1 h3 f hf g hg hne with h | h
  · omega
  · omega

/-- C4 (counterexample): on this session the boundary pipeline accepts
boundaries `[0, 8]` without any fallback, yet the first (non-degenerate) rep's
recorded `duration_ms` is 700 ms and the final tail rep's is 200 ms — both
below `min_rep_duration_ms = 800`. -/
theorem duration_filter_cex :
    validBoundaries (fun l => l) durationCexSqrt durationCexDF 800 8000 = [0, 8] ∧
    (resegment_single_source (fun l => l) durationCexSqrt durationCexDF 800 8000).2.map
      (·.duration_ms) = [700, 200] ∧
    ¬(800 ≤ (700 : ℚ)) ∧ ¬(800 ≤ (200 : ℚ)) := by
  refine ⟨durCex_vb, ?_, by norm_num, by norm_num⟩
  simp only [resegment_single_source]
  rw [durCex_vb, show durationCexDF.signal = durCexSig from rfl,
    show durationCexDF.timestamp_ms = durCexTs from rfl, durCex_smooth]
  norm_num [buildRepInfos, mainRepInfo, tailRepInfo, durCexTs, durCexSig, getQ, List.range_succ]

/-! ## Claim C5: segmentation invariants -/

/-- C5 (amended): for every session dataframe the accepted boundaries are
strictly increasing, the rep numbers are `1, 2, …` in order, distinct reps
occupy disjoint index ranges, every sample except possibly the final one is
covered by exactly one rep, and the final sample is covered (by exactly one
rep) whenever the last accepted boundary lies strictly before it.  The claim's
universal coverage of "every sample at or after the first accepted boundary"
does not hold: when the last boundary equals the final index — as the guided
fallback always arranges — the final sample belongs to no rep. -/
theorem segmentation_invariants_spec (sg : List ℚ → List ℚ) (sqrtQ : ℚ → ℚ)
    (df : SessionDF) (minD maxD : ℚ)
    (hsg : (sg df.signal).length = df.signal.length) :
    (validBoundaries sg sqrtQ df minD maxD).Pairwise (· < ·) ∧
    (resegment_single_source sg sqrtQ df minD maxD).2.map (fun f => f.rep) =
      List.range' 1 (resegment_single_source sg sqrtQ df minD maxD).2.length ∧
    (∀ f ∈ (resegment_single_source sg sqrtQ df minD maxD).2,
      ∀ g ∈ (resegment_single_source sg sqrtQ df minD maxD).2, f ≠ g →
        f.end_idx < g.start_idx ∨ g.end_idx < f.start_idx) ∧
    (∀ i, i + 1 < df.signal.length →
      ∃! f, f ∈ (resegment_single_source sg sqrtQ df minD maxD).2 ∧
        f.start_idx ≤ i ∧ i ≤ f.end_idx) ∧
    ((validBoundaries sg sqrtQ df minD maxD).getLastD 0 < df.signal.length - 1 →
      ∃! f, f ∈ (resegment_single_source sg sqrtQ df minD maxD).2 ∧
        f.start_idx ≤ df.signal.length - 1 ∧
        df.signal.length - 1 ≤ f.end_idx) := by
  obtain ⟨h1, h2, h3, _⟩ := validBoundaries_facts sg sqrtQ df minD maxD hsg
  have hres : (resegment_single_source sg sqrtQ df minD maxD).2 =
      buildRepInfos (smoothSignal sg df.signal) df.signal df.timestamp_ms
        df.signal.length (validBoundaries sg sqrtQ df minD maxD) := rfl
  refine ⟨h3, ?_, ?_, ?_, ?_⟩
  · rw [hres]
    exact buildRepInfos_repmap _ _ _ _ _ h1
  · rw [hres]
    exact fun f hf g hg hne =>
      buildRepInfos_disjoint _ _ _ _ _ h1 h3 f hf g hg hne
  · intro i hi
    rw [hres]
    obtain ⟨f, hf, hc⟩ := buildRepInfos_exists (smoothSignal sg df.signal) df.signal
      df.timestamp_ms df.signal.length _ h1 h2 h3 i hi
    refine ⟨f, ⟨hf, hc⟩, ?_⟩
    rintro g ⟨hg, hgc⟩
    exact buildRepInfos_unique _ _ _ _ _ h1 h3 i g hg hgc f hf hc
  · intro hlast
    rw [hres]
    obtain ⟨f, hf, hc⟩ := buildRepInfos_exists_last (smoothSignal sg df.signal) df.signal
      df.timestamp_ms df.signal.length _ hlast
    refine ⟨f, ⟨hf, hc⟩, ?_⟩
    rintro g ⟨hg, hgc⟩
    exact buildRepInfos_unique _ _ _ _ _ h1 h3 (df.signal.length - 1) g hg hgc f hf hc

/-- A two-sample session used to instantiate the segmentation invariants. -/
def segWitnessDF : SessionDF := ⟨[0, 100], [1, 2], none⟩

theorem segmentation_invariants_spec_witness :
    (resegment_single_source (fun l => l) (fun _ => 0) segWitnessDF 800 8000).2.map
        (fun f => f.rep) =
      List.range' 1
        (resegment_single_source (fun l => l) (fun _ => 0) segWitnessDF 800 8000).2.length :=
  (segmentation_invariants_spec (fun l => l) (fun _ => 0) segWitnessDF 800 8000 rfl).2.1

/-! ## Claim C5 counterexample: the final sample can belong to no rep -/

def covCexTs : List ℚ := [0, 100, 200, 300, 400]

def covCexSig : List ℚ := [1, 1, 1, 1, 1]

def covCexDF : SessionDF := ⟨covCexTs, covCexSig, some [1, 1, 1, 1, 1]⟩

lemma covCex_dist : minDistOf covCexTs = 5 := by
  norm_num [minDistOf, covCexTs, diffL, medianL, sortQ, insSorted, truncQ, getQ,
    Rat.num_ofNat, Rat.den_ofNat]
  decide

lemma covCex_lm : localMaxima (negL covCexSig) = [] := by decide

lemma covCex_lm2 : localMaxima covCexSig = [] := by decide

lemma covCex_fv (p : ℚ) : find_valleys covCexSig 5 p = [] := by
  rw [find_valleys, findPeaksDistProm, covCex_lm]
  rfl

lemma covCex_pk (p : ℚ) : findPeaksDistProm covCexSig 5 p = [] := by
  rw [findPeaksDistProm, covCex_lm2]
  rfl

lemma covCex_ladder (p : ℚ) : candidateLadder covCexSig 5 p = ([], p) := by
  simp [candidateLadder, retryLoop, covCex_fv, covCex_pk]

lemma covCex_te (p : ℚ) : tailExtend covCexSig covCexTs 5 p 800 5 [0] = [0] := by
  norm_num [tailExtend, covCexTs, getQ]

lemma covCex_guided : guidedFor covCexSig [1, 1, 1, 1, 1] 5 = [0, 4] := by decide

lemma covCex_vb :
    validBoundaries (fun l => l) (fun _ => 0) covCexDF 800 8000 = [0, 4] := by
  simp only [validBoundaries, covCexDF]
  rw [show smoothSignal (fun l => l) covCexSig = covCexSig from rfl, covCex_dist,
    covCex_ladder]
  simp only [show covCexSig.length = 5 from rfl]
  rw [show durationFilter covCexTs 800 8000 [] = [0] from rfl, covCex_te]
  have horig : originalRepsOf (some [1, 1, 1, 1, 1]) = [1] := by decide
  simp [horig, covCex_guided]

/-- C5 (counterexample): on this flat five-sample session with external rep
labels the guided fallback accepts boundaries `[0, 4]`; the last boundary is
the final index, so the single produced rep spans `[0, 3]`, sample `4` (which
lies after the first accepted boundary `0`) belongs to no rep, and the
resegmented rep-label column leaves it at `0`. -/
theorem coverage_cex :
    validBoundaries (fun l => l) (fun _ => 0) covCexDF 800 8000 = [0, 4] ∧
    covCexDF.signal.length = 5 ∧
    (∀ f ∈ (resegment_single_source (fun l => l) (fun _ => 0) covCexDF 800 8000).2,
      ¬(f.start_idx ≤ 4 ∧ 4 ≤ f.end_idx)) ∧
    (resegment_single_source (fun l => l) (fun _ => 0) covCexDF 800 8000).1.getD 4 0
      = 0 := by
  have hres2 : (resegment_single_source (fun l => l) (fun _ => 0) covCexDF 800 8000).2 =
      buildRepInfos covCexSig covCexSig covCexTs 5 [0, 4] := by
    simp only [resegment_single_source]
    rw [covCex_vb]
    rfl
  have hres1 : (resegment_single_source (fun l => l) (fun _ => 0) covCexDF 800 8000).1 =
      buildAssignment 5 [0, 4] := by
    simp only [resegment_single_source]
    rw [covCex_vb]
    rfl
  refine ⟨covCex_vb, rfl, ?_, ?_⟩
  · rw [hres2]
    decide
  · rw [hres1]
    decide

/-! ## Claim C7: degenerate fallback -/

/-- C7 (amended): when the whole fallback ladder leaves only the initial
boundary `0` and the session has at least two samples, the output contains
exactly one rep, numbered 1, spanning the entire sample range with no
next-rep pointer — and that rep is literally the ordinary tail-rep record, so
nothing in the output flags the degenerate case.  (With fewer than two samples
the output contains no rep at all.) -/
theorem degenerate_fallback_spec (sg : List ℚ → List ℚ) (sqrtQ : ℚ → ℚ)
    (df : SessionDF) (minD maxD : ℚ)
    (hvs : validBoundaries sg sqrtQ df minD maxD = [0])
    (hn : 2 ≤ df.signal.length) :
    (resegment_single_source sg sqrtQ df minD maxD).2.length = 1 ∧
    ∀ f ∈ (resegment_single_source sg sqrtQ df minD maxD).2,
      f.rep = 1 ∧ f.start_idx = 0 ∧ f.end_idx = df.signal.length - 1 ∧
      f.next_rep_start_idx = none ∧
      f = tailRepInfo (smoothSignal sg df.signal) df.signal df.timestamp_ms
            df.signal.length [0] := by
  have hres : (resegment_single_source sg sqrtQ df minD maxD).2 =
      buildRepInfos (smoothSignal sg df.signal) df.signal df.timestamp_ms
        df.signal.length (validBoundaries sg sqrtQ df minD maxD) := rfl
  have hone : buildRepInfos (smoothSignal sg df.signal) df.signal df.timestamp_ms
      df.signal.length [0] =
      [tailRepInfo (smoothSignal sg df.signal) df.signal df.timestamp_ms
        df.signal.length [0]] := by
    simp only [buildRepInfos]
    rw [if_pos (show ([0] : List ℕ).getLastD 0 < df.signal.length - 1 from by
      show 0 < df.signal.length - 1
      omega)]
    rfl
  rw [hres, hvs, hone]
  refine ⟨rfl, ?_⟩
  intro f hf
  rw [List.mem_singleton] at hf
  subst hf
  exact ⟨rfl, rfl, rfl, rfl, rfl⟩

/-- A flat two-sample session on which every detection step fails, leaving
only the initial boundary.  Its `rep` column is present (all 0), so line 543's
unconditional copy succeeds and the guided fallback finds no positive label. -/
def degenerateWitnessDF : SessionDF := ⟨[0, 100], [2, 2], some [0, 0]⟩

lemma degWit_fv (p : ℚ) : find_valleys [(2 : ℚ), 2] 5 p = [] := rfl

lemma degWit_pk (p : ℚ) : findPeaksDistProm [(2 : ℚ), 2] 5 p = [] := rfl

lemma degWit_ladder (p : ℚ) : candidateLadder [(2 : ℚ), 2] 5 p = ([], p) := by
  simp [candidateLadder, retryLoop, degWit_fv, degWit_pk]

lemma degWit_dist : minDistOf [(0 : ℚ), 100] = 5 := by
  norm_num [minDistOf, diffL, medianL, sortQ, insSorted, truncQ, getQ,
    Rat.num_ofNat, Rat.den_ofNat]
  decide

lemma degWit_vb :
    validBoundaries (fun l => l) (fun _ => 0) degenerateWitnessDF 800 8000 = [0] := by
  simp only [validBoundaries, degenerateWitnessDF]
  rw [show smoothSignal (fun l => l) [(2 : ℚ), 2] = [2, 2] from rfl, degWit_dist,
    degWit_ladder]
  simp only [show ([(2 : ℚ), 2]).length = 2 from rfl]
  rw [show durationFilter [(0 : ℚ), 100] 800 8000 [] = [0] from rfl]
  have hte : tailExtend [(2 : ℚ), 2] [(0 : ℚ), 100] 5
      (minPromOf (fun _ => 0) [(2 : ℚ), 2]) 800 2 [0] = [0] := by
    norm_num [tailExtend, getQ]
  rw [hte]
  have horig : originalRepsOf (some [0, 0]) = [] := by decide
  simp [horig]

theorem degenerate_fallback_spec_witness :
    validBoundaries (fun l => l) (fun _ => 0) degenerateWitnessDF 800 8000 = [0] ∧
    (resegment_single_source (fun l => l) (fun _ => 0) degenerateWitnessDF
      800 8000).2.length = 1 :=
  ⟨degWit_vb,
    (degenerate_fallback_spec (fun l => l) (fun _ => 0) degenerateWitnessDF 800 8000
      degWit_vb (by norm_num [degenerateWitnessDF])).1⟩

/-! ## Claim C7 counterexample: one sample, zero reps, no flag anywhere -/

def degenerateCexDF : SessionDF := ⟨[0], [0], some [0]⟩

/-- C7 (counterexample): on a one-sample session the whole ladder fails and
only boundary `0` remains, yet the output contains zero reps — not "exactly
one rep spanning the entire sample range" — and the rep-label column is `[0]`,
indistinguishable from a session in which every sample was simply left
unassigned; no degenerate/failure flag exists in the output. -/
theorem degenerate_single_rep_cex :
    validBoundaries (fun l => l) (fun _ => 0) degenerateCexDF 800 8000 = [0] ∧
    (resegment_single_source (fun l => l) (fun _ => 0) degenerateCexDF 800 8000).2
      = [] ∧
    (resegment_single_source (fun l => l) (fun _ => 0) degenerateCexDF 800 8000).1
      = [0] := by
  refine ⟨?_, ?_, ?_⟩
  · decide
  · decide
  · decide

/-! ## Claim C6: the fallback ladder -/

/-- The boundary list right before the guided-fallback decision: candidate
ladder, duration filter, tail handling. -/
def pipelineV2 (sg : List ℚ → List ℚ) (sqrtQ : ℚ → ℚ) (df : SessionDF) (minD maxD : ℚ) :
    List ℕ :=
  tailExtend (smoothSignal sg df.signal) df.timestamp_ms (minDistOf df.timestamp_ms)
    (candidateLadder (smoothSignal sg df.signal) (minDistOf df.timestamp_ms)
      (minPromOf sqrtQ (smoothSignal sg df.signal))).2 minD df.signal.length
    (durationFilter df.timestamp_ms minD maxD
      (candidateLadder (smoothSignal sg df.signal) (minDistOf df.timestamp_ms)
        (minPromOf sqrtQ (smoothSignal sg df.signal))).1)

lemma validBoundaries_eq_ite (sg : List ℚ → List ℚ) (sqrtQ : ℚ → ℚ) (df : SessionDF)
    (minD maxD : ℚ) :
    validBoundaries sg sqrtQ df minD maxD =
      if (pipelineV2 sg sqrtQ df minD maxD).length ≤ 1 ∧ originalRepsOf df.rep ≠ []
      then guidedFor (smoothSignal sg df.signal) (df.rep.getD []) df.signal.length
      else pipelineV2 sg sqrtQ df minD maxD := rfl

lemma retryLoop_r1 (smooth : List ℚ) (d : ℕ) (prom : ℚ)
    (h1 : 2 ≤ (find_valleys smooth d (prom * (1/2))).length) :
    retryLoop smooth d prom = (find_valleys smooth d (prom * (1/2)), prom * (1/2)) := by
  simp only [retryLoop]
  rw [if_pos h1]

lemma retryLoop_r2 (smooth : List ℚ) (d : ℕ) (prom : ℚ)
    (h1 : ¬2 ≤ (find_valleys smooth d (prom * (1/2))).length)
    (h2 : 2 ≤ (find_valleys smooth d (prom * (1/4))).length) :
    retryLoop smooth d prom = (find_valleys smooth d (prom * (1/4)), prom * (1/4)) := by
  simp only [retryLoop]
  rw [if_neg h1, if_pos h2]

lemma retryLoop_r3 (smooth : List ℚ) (d : ℕ) (prom : ℚ)
    (h1 : ¬2 ≤ (find_valleys smooth d (prom * (1/2))).length)
    (h2 : ¬2 ≤ (find_valleys smooth d (prom * (1/4))).length)
    (h3 : 2 ≤ (find_valleys smooth d (prom * (1/10))).length) :
    retryLoop smooth d prom = (find_valleys smooth d (prom * (1/10)), prom * (1/10)) := by
  simp only [retryLoop]
  rw [if_neg h1, if_neg h2, if_pos h3]

lemma retryLoop_fail (smooth : List ℚ) (d : ℕ) (prom : ℚ)
    (h1 : ¬2 ≤ (find_valleys smooth d (prom * (1/2))).length)
    (h2 : ¬2 ≤ (find_valleys smooth d (prom * (1/4))).length)
    (h3 : ¬2 ≤ (find_valleys smooth d (prom * (1/10))).length) :
    retryLoop smooth d prom = (find_valleys smooth d (prom * (1/10)), prom) := by
  simp only [retryLoop]
  rw [if_neg h1, if_neg h2, if_neg h3]

/-- C6 (amended): the retry/fallback order is as claimed — valleys at the base
prominence, then retries at 0.5, 0.25 and 0.1 of it stopping at the first
scale yielding at least 2 valleys, then peak detection at half the base
prominence, then the guided fallback when at most one boundary survives and
external rep labels exist — but the guided window is `max(int(span*0.2), 10)`
samples around each labelled rep's end, not the claimed ±20% of the rep
span. -/
theorem fallback_ladder_spec (smooth : List ℚ) (d : ℕ) (prom : ℚ)
    (sg : List ℚ → List ℚ) (sqrtQ : ℚ → ℚ) (df : SessionDF) (minD maxD : ℚ) :
    (2 ≤ (find_valleys smooth d prom).length →
      candidateLadder smooth d prom = (find_valleys smooth d prom, prom)) ∧
    (¬2 ≤ (find_valleys smooth d prom).length →
      2 ≤ (find_valleys smooth d (prom * (1/2))).length →
      candidateLadder smooth d prom =
        (find_valleys smooth d (prom * (1/2)), prom * (1/2))) ∧
    (¬2 ≤ (find_valleys smooth d prom).length →
      ¬2 ≤ (find_valleys smooth d (prom * (1/2))).length →
      2 ≤ (find_valleys smooth d (prom * (1/4))).length →
      candidateLadder smooth d prom =
        (find_valleys smooth d (prom * (1/4)), prom * (1/4))) ∧
    (¬2 ≤ (find_valleys smooth d prom).length →
      ¬2 ≤ (find_valleys smooth d (prom * (1/2))).length →
      ¬2 ≤ (find_valleys smooth d (prom * (1/4))).length →
      2 ≤ (find_valleys smooth d (prom * (1/10))).length →
      candidateLadder smooth d prom =
        (find_valleys smooth d (prom * (1/10)), prom * (1/10))) ∧
    (¬2 ≤ (find_valleys smooth d prom).length →
      ¬2 ≤ (find_valleys smooth d (prom * (1/2))).length →
      ¬2 ≤ (find_valleys smooth d (prom * (1/4))).length →
      ¬2 ≤ (find_valleys smooth d (prom * (1/10))).length →
      2 ≤ (findPeaksDistProm smooth d (prom * (1/2))).length →
      candidateLadder smooth d prom = (findPeaksDistProm smooth d (prom * (1/2)), prom)) ∧
    (¬2 ≤ (find_valleys smooth d prom).length →
      ¬2 ≤ (find_valleys smooth d (prom * (1/2))).length →
      ¬2 ≤ (find_valleys smooth d (prom * (1/4))).length →
      ¬2 ≤ (find_valleys smooth d (prom * (1/10))).length →
      ¬2 ≤ (findPeaksDistProm smooth d (prom * (1/2))).length →
      candidateLadder smooth d prom = (find_valleys smooth d (prom * (1/10)), prom)) ∧
    ((pipelineV2 sg sqrtQ df minD maxD).length ≤ 1 → originalRepsOf df.rep ≠ [] →
      validBoundaries sg sqrtQ df minD maxD =
        guidedFor (smoothSignal sg df.signal) (df.rep.getD []) df.signal.length) ∧
    (¬((pipelineV2 sg sqrtQ df minD maxD).length ≤ 1 ∧ originalRepsOf df.rep ≠ []) →
      validBoundaries sg sqrtQ df minD maxD = pipelineV2 sg sqrtQ df minD maxD) := by
  refine ⟨?_, ?_, ?_, ?_, ?_, ?_, ?_, ?_⟩
  · intro h0
    simp only [candidateLadder]
    rw [if_pos h0]
  · intro h0 h1
    simp only [candidateLadder]
    rw [if_neg h0, retryLoop_r1 smooth d prom h1]
    exact if_pos h1
  · intro h0 h1 h2
    simp only [candidateLadder]
    rw [if_neg h0, retryLoop_r2 smooth d prom h1 h2]
    exact if_pos h2
  · intro h0 h1 h2 h3
    simp only [candidateLadder]
    rw [if_neg h0, retryLoop_r3 smooth d prom h1 h2 h3]
    exact if_pos h3
  · intro h0 h1 h2 h3 hp
    simp only [candidateLadder]
    rw [if_neg h0, retryLoop_fail smooth d prom h1 h2 h3]
    dsimp only
    rw [if_neg h3, if_pos hp]
  · intro h0 h1 h2 h3 hp
    simp only [candidateLadder]
    rw [if_neg h0, retryLoop_fail smooth d prom h1 h2 h3]
    dsimp only
    rw [if_neg h3, if_neg hp]
  · intro hlen horig
    rw [validBoundaries_eq_ite]
    exact if_pos ⟨hlen, horig⟩
  · intro hcond
    rw [validBoundaries_eq_ite]
    exact if_neg hcond

/-- An alternating signal whose three valleys all have prominence 1, used to
exercise the first retry scale. -/
def lwSig : List ℚ := [1, 0, 1, 0, 1, 0, 1]

lemma lw_lm : localMaxima (negL lwSig) = [1, 3, 5] := by decide

lemma lw_ad : applyDistance (negL lwSig) [1, 3, 5] 1 = [1, 3, 5] := by decide

lemma lw_promAt1 : prominenceAt (negL lwSig) 1 = 1 := by
  norm_num [prominenceAt, leftMinFrom, rightMinFrom, negL, lwSig, getQ, min_def, max_def]

lemma lw_promAt3 : prominenceAt (negL lwSig) 3 = 1 := by
  norm_num [prominenceAt, leftMinFrom, rightMinFrom, negL, lwSig, getQ, min_def, max_def]

lemma lw_promAt5 : prominenceAt (negL lwSig) 5 = 1 := by
  norm_num [prominenceAt, leftMinFrom, rightMinFrom, negL, lwSig, getQ, min_def, max_def]

lemma lw_fv_lo (p : ℚ) (hp : p ≤ 1) : find_valleys lwSig 1 p = [1, 3, 5] := by
  rw [find_valleys, findPeaksDistProm, lw_lm, lw_ad]
  simp [List.filter_cons, lw_promAt1, lw_promAt3, lw_promAt5, hp]

lemma lw_fv_hi : find_valleys lwSig 1 (3/2) = [] := by
  rw [find_valleys, findPeaksDistProm, lw_lm, lw_ad]
  simp [List.filter_cons, lw_promAt1, lw_promAt3, lw_promAt5]
  norm_num

theorem fallback_ladder_spec_witness :
    ¬2 ≤ (find_valleys lwSig 1 (3/2)).length ∧
    2 ≤ (find_valleys lwSig 1 ((3/2) * (1/2))).length ∧
    candidateLadder lwSig 1 (3/2) =
      (find_valleys lwSig 1 ((3/2) * (1/2)), (3/2) * (1/2)) := by
  have h0 : ¬2 ≤ (find_valleys lwSig 1 (3/2)).length := by
    rw [lw_fv_hi]
    simp
  have h1 : 2 ≤ (find_valleys lwSig 1 ((3/2) * (1/2))).length := by
    rw [lw_fv_lo ((3/2) * (1/2)) (by norm_num)]
    simp
  exact ⟨h0, h1,
    (fallback_ladder_spec lwSig 1 (3/2) (fun l => l) (fun _ => 0) ⟨[], [], none⟩
      800 8000).2.1 h0 h1⟩

/-! ## Claim C6 counterexample: the guided window has a 10-sample floor -/

def gwTs : List ℚ := [0, 50, 100, 150, 200, 250, 300, 350, 400, 450, 500]

def gwSig : List ℚ := [2, 2, 2, 1, 2, 2, 2, 2, 2, 2, 2]

def gwSqrt : ℚ → ℚ := fun v => if v = 10/121 then 23/80 else 0

def guidedCexDF : SessionDF := ⟨gwTs, gwSig, some (List.replicate 11 1)⟩

lemma gw_dist : minDistOf gwTs = 10 := by
  norm_num [minDistOf, gwTs, diffL, medianL, sortQ, insSorted, truncQ, getQ,
    Rat.num_ofNat, Rat.den_ofNat]
  decide

lemma gw_var : varL gwSig = 10/121 := by
  norm_num [gwSig, varL, meanL, sumL]

lemma gw_prom : minPromOf gwSqrt gwSig = 23/160 := by
  have hmax : maxL gwSig = 2 := by norm_num [gwSig, maxL, max_def]
  have hmin : minL gwSig = 1 := by norm_num [gwSig, minL, min_def]
  rw [minPromOf, hmax, hmin, gw_var]
  norm_num [gwSqrt, max_def]

lemma gw_lm : localMaxima (negL gwSig) = [3] := by decide

lemma gw_lm2 : localMaxima gwSig = [] := by decide

lemma gw_ad : applyDistance (negL gwSig) [3] 10 = [3] := by decide

lemma gw_promAt : prominenceAt (negL gwSig) 3 = 1 := by
  norm_num [prominenceAt, leftMinFrom, rightMinFrom, negL, gwSig, getQ, min_def, max_def]

lemma gw_fv (p : ℚ) (hp : p ≤ 1) : find_valleys gwSig 10 p = [3] := by
  rw [find_valleys, findPeaksDistProm, gw_lm, gw_ad]
  simp [List.filter_cons, gw_promAt, hp]

lemma gw_pk : findPeaksDistProm gwSig 10 (23/160 * (1/2)) = [] := by
  rw [findPeaksDistProm, gw_lm2]
  rfl

lemma gw_ladder : candidateLadder gwSig 10 (23/160) = ([3], 23/160) := by
  have h0 := gw_fv (23/160) (by norm_num)
  have h1 := gw_fv (23/160 * (1/2)) (by norm_num)
  have h2 := gw_fv (23/160 * (1/4)) (by norm_num)
  have h3 := gw_fv (23/160 * (1/10)) (by norm_num)
  simp only [candidateLadder, retryLoop, h0, h1, h2, h3, gw_pk]
  norm_num

lemma gw_df : durationFilter gwTs 800 8000 [3] = [0] := by
  norm_num [durationFilter, durStep, gwTs, getQ]

lemma gw_te : tailExtend gwSig gwTs 10 (23/160) 800 11 [0] = [0] := by
  norm_num [tailExtend, gwTs, getQ]

lemma gw_guided : guidedFor gwSig (List.replicate 11 1) 11 = [0, 3, 10] := by decide

lemma gw_specGuided : guidedForSpecWindow gwSig (List.replicate 11 1) 11 = [0, 10] := by
  decide

lemma gw_vb : validBoundaries (fun l => l) gwSqrt guidedCexDF 800 8000 = [0, 3, 10] := by
  simp only [validBoundaries, guidedCexDF]
  rw [show smoothSignal (fun l => l) gwSig = gwSig from rfl, gw_dist, gw_prom, gw_ladder]
  simp only [show gwSig.length = 11 from rfl]
  rw [gw_df, gw_te]
  have horig : originalRepsOf (some [(1 : ℕ), 1, 1, 1, 1, 1, 1, 1, 1, 1, 1]) = [1] := by
    decide
  have hg : guidedFor gwSig [1, 1, 1, 1, 1, 1, 1, 1, 1, 1, 1] 11 = [0, 3, 10] := by decide
  simp [horig, hg]

/-- C6 (counterexample): the guided fallback searches `max(int(span*0.2), 10)`
samples around each labelled rep's end, not the claimed ±20% of the rep span:
on this 11-sample session the 10-sample floor widens the window to the whole
signal and the code accepts boundaries `[0, 3, 10]`, while the literal ±20%
window (2 samples, too short to pass the 3-sample guard) would yield
`[0, 10]`. -/
theorem guided_window_cex :
    validBoundaries (fun l => l) gwSqrt guidedCexDF 800 8000 = [0, 3, 10] ∧
    guidedFor gwSig (List.replicate 11 1) 11 = [0, 3, 10] ∧
    guidedForSpecWindow gwSig (List.replicate 11 1) 11 = [0, 10] :=
  ⟨gw_vb, gw_guided, gw_specGuided⟩

/-! ## Claim C8: the concentric/eccentric phase split -/

lemma primaryAxisOf_X (rx ry rz : ℚ) (h : primaryAxisOf rx ry rz = "X") :
    ry ≤ rx ∧ rz ≤ rx := by
  unfold primaryAxisOf at h
  split_ifs at h with h1 h2
  · exact h1
  · exact absurd h (by decide)
  · exact absurd h (by decide)

lemma primaryAxisOf_Y (rx ry rz : ℚ) (h : primaryAxisOf rx ry rz = "Y") :
    rx ≤ ry ∧ rz ≤ ry := by
  unfold primaryAxisOf at h
  split_ifs at h with h1 h2
  · exact absurd h (by decide)
  · push_neg at h1
    rcases le_or_lt ry rx with hyx | hxy
    · exact ⟨((h1 hyx).trans_le h2).le, h2⟩
    · exact ⟨hxy.le, h2⟩
  · exact absurd h (by decide)

lemma primaryAxisOf_Z (rx ry rz : ℚ) (h : primaryAxisOf rx ry rz = "Z") :
    rx ≤ rz ∧ ry ≤ rz := by
  unfold primaryAxisOf at h
  split_ifs at h with h1 h2
  · exact absurd h (by decide)
  · exact absurd h (by decide)
  · push_neg at h1
    push_neg at h2
    rcases le_or_lt ry rx with hyx | hxy
    · exact ⟨(h1 hyx).le, h2.le⟩
    · exact ⟨(hxy.trans h2).le, h2.le⟩

lemma getQ_map_abs (signal : List ℚ) (l : List ℕ) (m : ℕ) (hm : m < l.length) :
    getQ (l.map fun p => |getQ signal p|) m = |getQ signal (l.getD m 0)| := by
  rw [getQ, List.getD_eq_getElem _ _ (by simpa using hm), List.getD_eq_getElem _ _ hm,
    List.getElem_map]

/-- C8 (amended): the phase split picks an accelerometer axis of maximal range;
among the peaks detected on that axis and its negation (with fixed prominence
0.5 and minimum distance 10 — not an adaptive prominence) the transition is one
maximizing the absolute signal value, falling back to `argmax |signal|` when no
peak is detected; the concentric and eccentric durations are the times from rep
start to transition and from transition to rep end; the ratio is
concentric/eccentric with 0 when the eccentric duration is not positive; and
the percentages are taken over the concentric+eccentric sum, are 0 when that
sum is not positive, and otherwise add to 100. -/
theorem phase_split_spec (ax ay az ts : List ℚ) :
    ((phaseSplit ax ay az ts).primary_axis = "X" →
      maxL ay - minL ay ≤ maxL ax - minL ax ∧ maxL az - minL az ≤ maxL ax - minL ax) ∧
    ((phaseSplit ax ay az ts).primary_axis = "Y" →
      maxL ax - minL ax ≤ maxL ay - minL ay ∧ maxL az - minL az ≤ maxL ay - minL ay) ∧
    ((phaseSplit ax ay az ts).primary_axis = "Z" →
      maxL ax - minL ax ≤ maxL az - minL az ∧ maxL ay - minL ay ≤ maxL az - minL az) ∧
    (phasePeaks (phaseSignal ax ay az) ≠ [] →
      (phaseSplit ax ay az ts).transition_idx ∈ phasePeaks (phaseSignal ax ay az) ∧
      ∀ p ∈ phasePeaks (phaseSignal ax ay az),
        |getQ (phaseSignal ax ay az) p| ≤
          |getQ (phaseSignal ax ay az) ((phaseSplit ax ay az ts).transition_idx)|) ∧
    (phasePeaks (phaseSignal ax ay az) = [] →
      (phaseSplit ax ay az ts).transition_idx =
        argmaxL ((phaseSignal ax ay az).map (fun v => |v|))) ∧
    (0 < (phaseSplit ax ay az ts).transition_idx →
      (phaseSplit ax ay az ts).concentric_duration_ms =
        getQ ts (phaseSplit ax ay az ts).transition_idx - getQ ts 0) ∧
    ((phaseSplit ax ay az ts).transition_idx < ts.length →
      (phaseSplit ax ay az ts).eccentric_duration_ms =
        ts.getLastD 0 - getQ ts (phaseSplit ax ay az ts).transition_idx) ∧
    (¬0 < (phaseSplit ax ay az ts).eccentric_duration_ms →
      (phaseSplit ax ay az ts).concentric_eccentric_ratio = 0) ∧
    (0 < (phaseSplit ax ay az ts).eccentric_duration_ms →
      (phaseSplit ax ay az ts).concentric_eccentric_ratio =
        (phaseSplit ax ay az ts).concentric_duration_ms /
          (phaseSplit ax ay az ts).eccentric_duration_ms) ∧
    (¬0 < (phaseSplit ax ay az ts).concentric_duration_ms +
        (phaseSplit ax ay az ts).eccentric_duration_ms →
      (phaseSplit ax ay az ts).concentric_percentage = 0 ∧
      (phaseSplit ax ay az ts).eccentric_percentage = 0) ∧
    (0 < (phaseSplit ax ay az ts).concentric_duration_ms +
        (phaseSplit ax ay az ts).eccentric_duration_ms →
      (phaseSplit ax ay az ts).concentric_percentage +
        (phaseSplit ax ay az ts).eccentric_percentage = 100) := by
  have hpa : (phaseSplit ax ay az ts).primary_axis =
      primaryAxisOf (maxL ax - minL ax) (maxL ay - minL ay) (maxL az - minL az) := by
    simp only [phaseSplit]
  have hT : (phaseSplit ax ay az ts).transition_idx =
      phaseTransition (phaseSignal ax ay az) := by
    simp only [phaseSplit]
  have hTd : phaseTransition (phaseSignal ax ay az) =
      if (phasePeaks (phaseSignal ax ay az)).isEmpty then
        argmaxL ((phaseSignal ax ay az).map (fun v => |v|))
      else (phasePeaks (phaseSignal ax ay az)).getD
        (argmaxL ((phasePeaks (phaseSignal ax ay az)).map
          (fun p => |getQ (phaseSignal ax ay az) p|))) 0 := rfl
  have hconc : (phaseSplit ax ay az ts).concentric_duration_ms =
      phaseConc ts (phaseTransition (phaseSignal ax ay az)) := by
    simp only [phaseSplit]
  have hecc : (phaseSplit ax ay az ts).eccentric_duration_ms =
      phaseEcc ts (phaseTransition (phaseSignal ax ay az)) := by
    simp only [phaseSplit]
  have hratio : (phaseSplit ax ay az ts).concentric_eccentric_ratio =
      if 0 < phaseEcc ts (phaseTransition (phaseSignal ax ay az)) then
        phaseConc ts (phaseTransition (phaseSignal ax ay az)) /
          phaseEcc ts (phaseTransition (phaseSignal ax ay az))
      else 0 := by
    simp only [phaseSplit]
  have hcp : (phaseSplit ax ay az ts).concentric_percentage =
      if 0 < phaseConc ts (phaseTransition (phaseSignal ax ay az)) +
          phaseEcc ts (phaseTransition (phaseSignal ax ay az)) then
        phaseConc ts (phaseTransition (phaseSignal ax ay az)) /
          (phaseConc ts (phaseTransition (phaseSignal ax ay az)) +
            phaseEcc ts (phaseTransition (phaseSignal ax ay az))) * 100
      else 0 := by
    simp only [phaseSplit]
  have hep : (phaseSplit ax ay az ts).eccentric_percentage =
      if 0 < phaseConc ts (phaseTransition (phaseSignal ax ay az)) +
          phaseEcc ts (phaseTransition (phaseSignal ax ay az)) then
        phaseEcc ts (phaseTransition (phaseSignal ax ay az)) /
          (phaseConc ts (phaseTransition (phaseSignal ax ay az)) +
            phaseEcc ts (phaseTransition (phaseSignal ax ay az))) * 100
      else 0 := by
    simp only [phaseSplit]
  refine ⟨?_, ?_, ?_, ?_, ?_, ?_, ?_, ?_, ?_, ?_, ?_⟩
  · intro h
    rw [hpa] at h
    exact primaryAxisOf_X _ _ _ h
  · intro h
    rw [hpa] at h
    exact primaryAxisOf_Y _ _ _ h
  · intro h
    rw [hpa] at h
    exact primaryAxisOf_Z _ _ _ h
  · intro hne
    have hemp : ¬((phasePeaks (phaseSignal ax ay az)).isEmpty = true) := by
      simp [List.isEmpty_iff, hne]
    rw [hT, hTd, if_neg hemp]
    have hmap_ne : (phasePeaks (phaseSignal ax ay az)).map
        (fun p => |getQ (phaseSignal ax ay az) p|) ≠ [] := by
      simp [hne]
    obtain ⟨hlt, hall⟩ := argmaxL_spec _ hmap_ne
    rw [List.length_map] at hlt
    constructor
    · rw [List.getD_eq_getElem _ _ hlt]
      exact List.getElem_mem _
    · intro p hp
      have h2 := hall _ (List.mem_map_of_mem _ hp)
      rwa [getQ_map_abs _ _ _ hlt] at h2
  · intro hemp
    rw [hT, hTd, if_pos (by simp [List.isEmpty_iff, hemp])]
  · intro h
    rw [hT] at h
    rw [hconc, hT]
    simp only [phaseConc]
    rw [if_pos h]
  · intro h
    rw [hT] at h
    rw [hecc, hT]
    simp only [phaseEcc]
    rw [if_pos h]
  · intro h
    rw [hecc] at h
    rw [hratio, if_neg h]
  · intro h
    rw [hecc] at h
    rw [hratio, hconc, hecc, if_pos h]
  · intro h
    rw [hconc, hecc] at h
    rw [hcp, hep, if_neg h, if_neg h]
    exact ⟨rfl, rfl⟩
  · intro h
    rw [hconc, hecc] at h
    rw [hcp, hep, if_pos h, if_pos h]
    have hne : phaseConc ts (phaseTransition (phaseSignal ax ay az)) +
        phaseEcc ts (phaseTransition (phaseSignal ax ay az)) ≠ 0 := ne_of_gt h
    field_simp
    ring

lemma psA_fv : findPeaksDistProm [(0 : ℚ), 1, 0] 10 (1/2) = [1] := by
  have hlm : localMaxima [(0 : ℚ), 1, 0] = [1] := by decide
  have had : applyDistance [(0 : ℚ), 1, 0] [1] 10 = [1] := by decide
  have hpr : prominenceAt [(0 : ℚ), 1, 0] 1 = 1 := by
    norm_num [prominenceAt, leftMinFrom, rightMinFrom, getQ, min_def, max_def]
  rw [findPeaksDistProm, hlm, had]
  simp [List.filter_cons, hpr]
  norm_num

lemma psA_pk : phasePeaks [(0 : ℚ), 1, 0] = [1] := by
  have hn : findPeaksDistProm (negL [(0 : ℚ), 1, 0]) 10 (1/2) = [] := by
    rw [findPeaksDistProm, show localMaxima (negL [(0 : ℚ), 1, 0]) = [] from by decide]
    rfl
  rw [phasePeaks, psA_fv, hn]
  rfl

lemma psW_sig : phaseSignal [(0 : ℚ), 1, 0] [0, 0, 0] [0, 0, 0] = [(0 : ℚ), 1, 0] := by
  have hx : maxL [(0 : ℚ), 1, 0] - minL [(0 : ℚ), 1, 0] = 1 := by
    norm_num [maxL, minL, max_def, min_def]
  have h0 : maxL [(0 : ℚ), 0, 0] - minL [(0 : ℚ), 0, 0] = 0 := by
    norm_num [maxL, minL, max_def, min_def]
  simp only [phaseSignal, hx, h0]
  norm_num [primaryAxisOf]

theorem phase_split_spec_witness :
    phasePeaks (phaseSignal [(0 : ℚ), 1, 0] [0, 0, 0] [0, 0, 0]) ≠ [] ∧
    (phaseSplit [(0 : ℚ), 1, 0] [0, 0, 0] [0, 0, 0] [0, 100, 300]).transition_idx ∈
      phasePeaks (phaseSignal [(0 : ℚ), 1, 0] [0, 0, 0] [0, 0, 0]) ∧
    0 < (phaseSplit [(0 : ℚ), 1, 0] [0, 0, 0] [0, 0, 0] [0, 100, 300]).eccentric_duration_ms ∧
    (phaseSplit [(0 : ℚ), 1, 0] [0, 0, 0] [0, 0, 0] [0, 100, 300]).concentric_eccentric_ratio =
      (phaseSplit [(0 : ℚ), 1, 0] [0, 0, 0] [0, 0, 0] [0, 100, 300]).concentric_duration_ms /
        (phaseSplit [(0 : ℚ), 1, 0] [0, 0, 0] [0, 0, 0] [0, 100, 300]).eccentric_duration_ms ∧
    (phaseSplit [(0 : ℚ), 1, 0] [0, 0, 0] [0, 0, 0] [0, 100, 300]).concentric_percentage +
      (phaseSplit [(0 : ℚ), 1, 0] [0, 0, 0] [0, 0, 0] [0, 100, 300]).eccentric_percentage
      = 100 := by
  have hne : phasePeaks (phaseSignal [(0 : ℚ), 1, 0] [0, 0, 0] [0, 0, 0]) ≠ [] := by
    rw [psW_sig, psA_pk]
    simp
  have htr : (phaseSplit [(0 : ℚ), 1, 0] [0, 0, 0] [0, 0, 0] [0, 100, 300]).transition_idx
      = 1 := by
    show (if (phasePeaks (phaseSignal [(0 : ℚ), 1, 0] [0, 0, 0] [0, 0, 0])).isEmpty then
        argmaxL ((phaseSignal [(0 : ℚ), 1, 0] [0, 0, 0] [0, 0, 0]).map (fun v => |v|))
      else (phasePeaks (phaseSignal [(0 : ℚ), 1, 0] [0, 0, 0] [0, 0, 0])).getD
        (argmaxL ((phasePeaks (phaseSignal [(0 : ℚ), 1, 0] [0, 0, 0] [0, 0, 0])).map
          (fun p => |getQ (phaseSignal [(0 : ℚ), 1, 0] [0, 0, 0] [0, 0, 0]) p|))) 0) = 1
    rw [psW_sig, psA_pk]
    norm_num [argmaxL, argmaxGo, getQ]
  have hconc : (phaseSplit [(0 : ℚ), 1, 0] [0, 0, 0] [0, 0, 0]
      [0, 100, 300]).concentric_duration_ms = 100 := by
    show (if 0 < (phaseSplit [(0 : ℚ), 1, 0] [0, 0, 0] [0, 0, 0]
          [0, 100, 300]).transition_idx then
        getQ [0, 100, 300] ((phaseSplit [(0 : ℚ), 1, 0] [0, 0, 0] [0, 0, 0]
          [0, 100, 300]).transition_idx) - getQ [0, 100, 300] 0
      else 0) = 100
    rw [htr]
    norm_num [getQ]
  have heccv : (phaseSplit [(0 : ℚ), 1, 0] [0, 0, 0] [0, 0, 0]
      [0, 100, 300]).eccentric_duration_ms = 200 := by
    show (if (phaseSplit [(0 : ℚ), 1, 0] [0, 0, 0] [0, 0, 0]
          [0, 100, 300]).transition_idx < ([(0 : ℚ), 100, 300]).length then
        ([(0 : ℚ), 100, 300]).getLastD 0 - getQ [0, 100, 300]
          ((phaseSplit [(0 : ℚ), 1, 0] [0, 0, 0] [0, 0, 0] [0, 100, 300]).transition_idx)
      else 0) = 200
    rw [htr]
    norm_num [getQ]
  have hecc : 0 < (phaseSplit [(0 : ℚ), 1, 0] [0, 0, 0] [0, 0, 0]
      [0, 100, 300]).eccentric_duration_ms := by
    rw [heccv]
    norm_num
  have htot : 0 < (phaseSplit [(0 : ℚ), 1, 0] [0, 0, 0] [0, 0, 0]
        [0, 100, 300]).concentric_duration_ms +
      (phaseSplit [(0 : ℚ), 1, 0] [0, 0, 0] [0, 0, 0] [0, 100, 300]).eccentric_duration_ms
      := by
    rw [hconc, heccv]
    norm_num
  have H := phase_split_spec [(0 : ℚ), 1, 0] [0, 0, 0] [0, 0, 0] [0, 100, 300]
  exact ⟨hne, (H.2.2.2.1 hne).1, hecc, H.2.2.2.2.2.2.2.2.1 hecc,
    H.2.2.2.2.2.2.2.2.2.2 htot⟩

/-- The rational 2/5 given directly by numerator and denominator, so that
kernel evaluation of comparisons does not have to reduce `Rat.div`. -/
def q25 : ℚ := ⟨2, 5, by norm_num, by norm_num⟩

lemma q25_eq : q25 = 2/5 := by
  rw [q25, Rat.mk'_eq_divInt, Rat.divInt_eq_div]
  norm_num

/-- C8 (counterexample): the peak detection inside the phase split uses the
fixed prominence threshold 0.5, not one adapted to the signal: scaling the
signal `[0, 1, 0]` — whose single peak is detected — by 2/5 yields a signal of
identical shape on which no peak at all is detected, because its prominence
2/5 falls below the constant threshold. -/
theorem phase_prominence_cex :
    phasePeaks [(0 : ℚ), 1, 0] = [1] ∧
    phasePeaks [(0 : ℚ), q25, 0] = [] ∧
    [(0 : ℚ), q25, 0] = [(0 : ℚ), 1, 0].map (fun v => (2/5) * v) := by
  have hlmB : localMaxima [(0 : ℚ), q25, 0] = [1] := by decide
  have hadB : applyDistance [(0 : ℚ), q25, 0] [1] 10 = [1] := by decide
  have hprB : prominenceAt [(0 : ℚ), q25, 0] 1 = 2/5 := by
    norm_num [prominenceAt, leftMinFrom, rightMinFrom, getQ, min_def, max_def, q25_eq]
  have hfB : findPeaksDistProm [(0 : ℚ), q25, 0] 10 (1/2) = [] := by
    rw [findPeaksDistProm, hlmB, hadB]
    simp [List.filter_cons, hprB]
    norm_num
  have hfnB : findPeaksDistProm (negL [(0 : ℚ), q25, 0]) 10 (1/2) = [] := by
    rw [findPeaksDistProm, show localMaxima (negL [(0 : ℚ), q25, 0]) = [] from by decide]
    rfl
  refine ⟨psA_pk, ?_, ?_⟩
  · rw [phasePeaks, hfB, hfnB]
    rfl
  · norm_num [q25_eq]

end AppLift
